import Mathlib

/-!
Verification development for the arpchat ARP-tunneled chat transport.

The Rust sources are shallowly embedded: byte buffers are lists of naturals
(each intended to be a byte value), Rust strings are their UTF-8 byte lists
together with a validity predicate, fixed-size arrays carry explicit length
hypotheses, and Rust panics (out-of-bounds indexing and slicing) are made
explicit through a result type with a dedicated panic constructor.
-/

namespace Arpchat

/-- Result of running a piece of Rust code that may panic (out-of-bounds
indexing or slicing aborts the thread instead of returning). -/
inductive PResult (α : Type) where
  | panic : PResult α
  | value : α → PResult α
  deriving Repr, DecidableEq

/-- Big-endian bytes of a natural, `width` bytes, truncating modulo 2 ^ (8 * width);
this models `u64::to_be_bytes` (width 8) and `u32::to_be_bytes` (width 4). -/
def toBE (width : Nat) (n : Nat) : List Nat :=
  match width with
  | 0 => []
  | w + 1 => toBE w (n / 256) ++ [n % 256]

/-- Natural denoted by a big-endian byte list; models `u64::from_be_bytes` /
`u32::from_be_bytes` applied to a byte slice of the right width. -/
def fromBE (l : List Nat) : Nat :=
  l.foldl (fun acc b => acc * 256 + b) 0

/-- UTF-8 validity of a byte list, exactly the check performed by Rust's
`String::from_utf8` (rejecting overlong forms, surrogates, and values above
U+10FFFF). -/
def validUtf8 : List Nat → Bool
  | [] => true
  | b :: rest =>
    if b < 0x80 then validUtf8 rest
    else if b < 0xC2 then false
    else if b < 0xE0 then
      match rest with
      | b1 :: r => (0x80 ≤ b1 && b1 ≤ 0xBF) && validUtf8 r
      | [] => false
    else if b = 0xE0 then
      match rest with
      | b1 :: b2 :: r =>
        (0xA0 ≤ b1 && b1 ≤ 0xBF) && (0x80 ≤ b2 && b2 ≤ 0xBF) && validUtf8 r
      | _ => false
    else if b < 0xED ∨ (0xEE ≤ b ∧ b < 0xF0) then
      match rest with
      | b1 :: b2 :: r =>
        (0x80 ≤ b1 && b1 ≤ 0xBF) && (0x80 ≤ b2 && b2 ≤ 0xBF) && validUtf8 r
      | _ => false
    else if b = 0xED then
      match rest with
      | b1 :: b2 :: r =>
        (0x80 ≤ b1 && b1 ≤ 0x9F) && (0x80 ≤ b2 && b2 ≤ 0xBF) && validUtf8 r
      | _ => false
    else if b = 0xF0 then
      match rest with
      | b1 :: b2 :: b3 :: r =>
        (0x90 ≤ b1 && b1 ≤ 0xBF) && (0x80 ≤ b2 && b2 ≤ 0xBF) &&
          (0x80 ≤ b3 && b3 ≤ 0xBF) && validUtf8 r
      | _ => false
    else if b < 0xF4 then
      match rest with
      | b1 :: b2 :: b3 :: r =>
        (0x80 ≤ b1 && b1 ≤ 0xBF) && (0x80 ≤ b2 && b2 ≤ 0xBF) &&
          (0x80 ≤ b3 && b3 ≤ 0xBF) && validUtf8 r
      | _ => false
    else if b = 0xF4 then
      match rest with
      | b1 :: b2 :: b3 :: r =>
        (0x80 ≤ b1 && b1 ≤ 0x8F) && (0x80 ≤ b2 && b2 ≤ 0xBF) &&
          (0x80 ≤ b3 && b3 ≤ 0xBF) && validUtf8 r
      | _ => false
    else false

/-- Unicode scalar validity, the check of `char::from_u32`. -/
def validScalar (n : Nat) : Bool :=
  decide (n < 0x110000 ∧ ¬(0xD800 ≤ n ∧ n ≤ 0xDFFF))

/-- Model of `char::from_u32`. -/
def charFromU32 (n : Nat) : Option Nat :=
  if validScalar n then some n else none

/-- Substring test on byte lists, the semantics of Rust's `str::contains`
with a string pattern (for valid UTF-8, character-level substring search
coincides with byte-level substring search). -/
def listContains (l pat : List Nat) : Bool :=
  pat.isPrefixOf l ||
    match l with
    | [] => false
    | _ :: t => listContains t pat

/-- Modelled from the spec: the message-body compressor is the external
`smaz` crate, absent from the sources; the spec describes it only as "a
small-string dictionary compressor tuned for short English text" whose
decompression can fail. It is modelled as a greedy dictionary coder: a code
byte below the codebook size denotes a dictionary entry, the escape byte 254
is followed by one verbatim byte. This codebook of common short English
fragments plays the role of the crate's dictionary. -/
def smazCodebook : List (List Nat) :=
  [[32], [116, 104, 101], [101], [116], [97], [111, 102], [111], [97, 110, 100],
   [105], [110], [115], [101, 114], [32, 116], [114], [32, 97], [104, 101],
   [111, 110], [105, 110, 103], [97, 116], [101, 100], [105, 115], [104],
   [104, 105], [108, 111, 108], [117, 119, 117]]

/-- First codebook entry (scanning from index `start`) that is a nonempty
byte-prefix of `l`, returned with its index. -/
def findCode (start : Nat) (book : List (List Nat)) (l : List Nat) :
    Option (Nat × List Nat) :=
  match book with
  | [] => none
  | e :: es =>
    if e ≠ [] ∧ e.isPrefixOf l then some (start, e)
    else findCode (start + 1) es l

/-- Modelled from the spec: `smaz` compression, structured on a fuel
argument that the wrapper `smazCompress` instantiates with the input
length (each step consumes at least one input byte, so that fuel always
suffices). Dictionary hits emit their code byte; other bytes are escaped
verbatim. -/
def smazCompressAux : Nat → List Nat → List Nat
  | 0, _ => []
  | fuel + 1, l =>
    match findCode 0 smazCodebook l with
    | some ie => ie.1 :: smazCompressAux fuel (l.drop ie.2.length)
    | none =>
      match l with
      | [] => []
      | b :: rest => 254 :: b :: smazCompressAux fuel rest

/-- Modelled from the spec: `smaz` compression (see `smazCodebook` and
`smazCompressAux`). -/
def smazCompress (l : List Nat) : List Nat :=
  smazCompressAux l.length l

/-- Modelled from the spec: `smaz` decompression; returns nothing on a
dangling escape or an out-of-range code byte (matching "decompression
failure yields no packet"). -/
def smazDecompress : List Nat → Option (List Nat)
  | [] => some []
  | b :: rest =>
    if b = 254 then
      match rest with
      | [] => none
      | v :: r =>
        match smazDecompress r with
        | some out => some (v :: out)
        | none => none
    else
      match smazCodebook.get? b with
      | some e =>
        match smazDecompress rest with
        | some out => some (e ++ out)
        | none => none
      | none => none

/-- Byte size of packet and peer identifiers (`ID_SIZE` in net.rs). -/
def idSize : Nat := 8

/-- Byte size of the channel-length field (`LEN_PREFIX_SIZE` in net.rs). -/
def lenSize : Nat := 8

/-- The magic bytes "uwu" that open every application payload. -/
def magicBytes : List Nat := [117, 119, 117]

/-- Maximum inner bytes per fragment (`PACKET_PART_SIZE` in net.rs):
255 minus the magic, the three header bytes, and the 8-byte id. -/
def packetPartSize : Nat := 255 - (magicBytes.length + 3 + idSize)

/-- The application packet taxonomy of net.rs. Rust `[u8; 8]` identifiers
become byte lists (length 8 by well-formedness), Rust `String`s become their
UTF-8 byte lists, and `char` becomes its Unicode scalar value. -/
inductive Packet where
  | message (id author channel msgBody : List Nat)
  | presenceReq
  | presence (id : List Nat) (isJoin : Bool) (username : List Nat)
  | disconnect (id : List Nat)
  | reaction (id : List Nat) (character : Nat)
  deriving Repr, DecidableEq

namespace Packet

/-- Model of `Packet::tag`. -/
def tag : Packet → Nat
  | .message _ _ _ _ => 0
  | .presenceReq => 1
  | .presence _ _ _ => 2
  | .disconnect _ => 3
  | .reaction _ _ => 4

/-- Model of `Packet::serialize`. -/
def serialize : Packet → List Nat
  | .message id author channel msgBody =>
    id ++ author ++ toBE 8 channel.length ++ channel ++ smazCompress msgBody
  | .presenceReq => []
  | .presence id isJoin s => id ++ [if isJoin then 1 else 0] ++ s
  | .disconnect id => id
  | .reaction id c => id ++ toBE 4 c

/-- Invariants of the Rust values a `Packet` embeds: identifiers are 8
bytes, strings are valid UTF-8, a `char` is a valid Unicode scalar. -/
def wf : Packet → Prop
  | .message id author channel msgBody =>
    id.length = 8 ∧ author.length = 8 ∧ validUtf8 channel ∧ validUtf8 msgBody
  | .presenceReq => True
  | .presence id _ s => id.length = 8 ∧ validUtf8 s
  | .disconnect id => id.length = 8
  | .reaction id c => id.length = 8 ∧ validScalar c

instance wfDecidable (p : Packet) : Decidable p.wf := by
  cases p <;> (simp only [wf]; infer_instance)

/-- Model of `Packet::deserialize`. Rust indexing and slicing with an out-of-range
bound panics, which the `.panic` result records; the graceful
`try_into().ok()?` / `String::from_utf8` / decompression failures return
`.value none`. -/
def deserialize (tag : Nat) (data : List Nat) : PResult (Option Packet) :=
  match tag with
  | 0 =>
    -- chan_len is read from data[16..24] first: slicing panics when the
    -- buffer is shorter than 24 bytes.
    if 24 ≤ data.length then
      let chanLen := fromBE ((data.drop 16).take 8)
      let strStart := 24 + chanLen
      let id := data.take 8
      let userId := (data.drop 8).take 8
      -- data[24..str_start] panics when str_start exceeds the length.
      if strStart ≤ data.length then
        let chan := (data.drop 24).take chanLen
        if validUtf8 chan then
          match smazDecompress (data.drop strStart) with
          | some raw =>
            if validUtf8 raw then .value (some (.message id userId chan raw))
            else .value none
          | none => .value none
        else .value none
      else .panic
    else .panic
  | 1 => .value (some .presenceReq)
  | 2 =>
    -- data[..8] and data[8] both panic unless at least 9 bytes are present.
    if 9 ≤ data.length then
      let id := data.take 8
      let isJoin := decide (0 < data.getD 8 0)
      let s := data.drop 9
      if validUtf8 s then .value (some (.presence id isJoin s)) else .value none
    else .panic
  | 3 => .value (if data.length = 8 then some (.disconnect data) else none)
  | 4 =>
    -- data[..8] panics below 8 bytes; the 4-byte try_into then fails
    -- gracefully unless exactly 4 bytes remain.
    if 8 ≤ data.length then
      let id := data.take 8
      if data.length = 12 then
        match charFromU32 (fromBE (data.drop 8)) with
        | some c => .value (some (.reaction id c))
        | none => .value none
      else .value none
    else .panic
  | _ => .value none

end Packet

/-- The error cases of `Channel::send` (`ArpchatError::MsgTooLong`). -/
inductive ArpchatError where
  | msgTooLong
  deriving Repr, DecidableEq

/-- Fuel-structured worker for `chunks241` (each step consumes at least
one byte, so fuel equal to the input length always suffices). -/
def chunksAux : Nat → List Nat → List (List Nat)
  | 0, _ => []
  | fuel + 1, l =>
    match l with
    | [] => []
    | _ :: _ => l.take 241 :: chunksAux fuel (l.drop 241)

/-- Model of `slice::chunks(PACKET_PART_SIZE)`: split into pieces of at most 241
bytes; the empty slice yields no chunks. -/
def chunks241 (l : List Nat) : List (List Nat) :=
  chunksAux l.length l

/-- A parsed fragment: tag, sequence number, total (= fragment count minus
one), packet id, and inner payload bytes. -/
structure Frag where
  tag : Nat
  seq : Nat
  total : Nat
  id : List Nat
  inner : List Nat
  deriving Repr, DecidableEq

/-- The application bytes `send_part` places in the protocol-address
regions: magic, tag, seq, total, id, inner. -/
def Frag.appBytes (f : Frag) : List Nat :=
  magicBytes ++ [f.tag, f.seq, f.total] ++ f.id ++ f.inner

/-- Model of `Channel::send`, with the randomly drawn packet id passed explicitly:
serialize, chunk into parts of at most 241 bytes, substitute the one-byte
placeholder "." when there are no parts, fail when more than 256 parts,
otherwise emit one fragment per part in sequence order. -/
def Channel.send (p : Packet) (pid : List Nat) : Except ArpchatError (List Frag) :=
  let data := p.serialize
  let parts := match chunks241 data with
    | [] => [[46]]
    | c => c
  if parts.length - 1 > 255 then .error .msgTooLong
  else
    let total := parts.length - 1
    .ok (parts.enum.map fun sp => ⟨p.tag, sp.1, total, pid, sp.2⟩)

/-- Association-list lookup modelling `HashMap::get`. -/
def alookup {β : Type} (m : List (List Nat × β)) (k : List Nat) : Option β :=
  match m with
  | [] => none
  | (k0, v0) :: rest => if k0 = k then some v0 else alookup rest k

/-- Replace the value stored at an existing key (used for in-place mutation
of a looked-up entry, and for `HashMap::insert` on a present key). -/
def aset {β : Type} (m : List (List Nat × β)) (k : List Nat) (v : β) :
    List (List Nat × β) :=
  m.map fun e => if e.1 = k then (k, v) else e

/-- Model of `HashMap::insert`: overwrite a present key, otherwise add the binding. -/
def ainsert {β : Type} (m : List (List Nat × β)) (k : List Nat) (v : β) :
    List (List Nat × β) :=
  if (alookup m k).isSome then aset m k v else (k, v) :: m

/-- Model of `HashMap::remove` (the removed value itself is returned by `alookup`). -/
def aremove {β : Type} (m : List (List Nat × β)) (k : List Nat) :
    List (List Nat × β) :=
  m.filter fun e => e.1 ≠ k

/-- The fixed-capacity recency ring of ringbuffer.rs: a boxed slice of
optional slots and a write index. -/
structure Ringbuffer where
  data : List (Option (List Nat))
  index : Nat
  deriving Repr, DecidableEq

namespace Ringbuffer

/-- Model of `Ringbuffer::with_capacity`. -/
def withCapacity (capacity : Nat) : Ringbuffer :=
  ⟨List.replicate capacity none, 0⟩

/-- Model of `Ringbuffer::push`: overwrite the slot at the write index and advance
it cyclically. -/
def push (r : Ringbuffer) (item : List Nat) : Ringbuffer :=
  ⟨r.data.set r.index (some item), (r.index + 1) % r.data.length⟩

/-- Model of `Ringbuffer::contains`: linear scan of the slots. -/
def ringContains (r : Ringbuffer) (item : List Nat) : Bool :=
  r.data.any fun x => decide (x = some item)

end Ringbuffer

/-- The reassembly-and-dedup state of `Channel`: the fragment buffer keyed
by packet id, and the recency ring. -/
structure ChanState where
  buffer : List (List Nat × List (List Nat))
  recent : Ringbuffer
  deriving Repr, DecidableEq

/-- Section 2 of `try_recv` once all parts of the id are present in
`parts`: concatenate, deserialize, and on success remove the buffer entry
and push the id into the recency ring. `buf` is the buffer already holding
`parts` under `f.id`. -/
def completeStep (recent : Ringbuffer) (buf : List (List Nat × List (List Nat)))
    (f : Frag) (parts : List (List Nat)) : PResult (ChanState × Option Packet) :=
  if parts.all fun p => p ≠ [] then
    match Packet.deserialize f.tag parts.flatten with
    | .panic => .panic
    | .value (some p) => .value (⟨aremove buf f.id, recent.push f.id⟩, some p)
    | .value none => .value (⟨buf, recent⟩, none)
  else .value (⟨buf, recent⟩, none)

/-- The reassembly core of `Channel::try_recv`, acting on an already parsed
fragment (the frame filtering and id parsing precede this): drop ids found
in the recency ring, otherwise store the inner bytes at slot `seq` — Rust
indexing panics when `seq` is outside the slot vector — and attempt
completion. -/
def recvStep (st : ChanState) (f : Frag) : PResult (ChanState × Option Packet) :=
  if st.recent.ringContains f.id then .value (st, none)
  else
    match alookup st.buffer f.id with
    | some parts =>
      if f.seq < parts.length then
        completeStep st.recent (aset st.buffer f.id (parts.set f.seq f.inner)) f
          (parts.set f.seq f.inner)
      else .panic
    | none =>
      let parts := (List.replicate (f.total + 1) []).set f.seq f.inner
      if f.seq < f.total + 1 then
        completeStep st.recent ((f.id, parts) :: st.buffer) f parts
      else .panic

/-- Process a list of fragments in order, collecting delivered packets;
a panic anywhere aborts the run. -/
def processList (st : ChanState) : List Frag → PResult (ChanState × List Packet)
  | [] => .value (st, [])
  | f :: fs =>
    match recvStep st f with
    | .panic => .panic
    | .value (st1, r) =>
      match processList st1 fs with
      | .panic => .panic
      | .value (st2, ps) => .value (st2, r.toList ++ ps)

/-! The network worker of ui/net_thread.rs. That file constructs and
matches `Packet::Message` with two positional fields (id and body) and
never handles `Reaction`, so the worker model carries its own packet view
`WPacket` mirroring exactly the constructors the worker uses. Timestamps
(`Instant`) are naturals; `Instant::now()` enters as an explicit `now`
parameter and `t.elapsed()` is `now - t`. -/

/-- The constant `HEARTBEAT_INTERVAL`, in seconds. -/
def heartbeatInterval : Nat := 3

/-- The constant `INACTIVE_TIMEOUT`, in seconds. -/
def inactiveTimeout : Nat := 6

/-- The constant `OFFLINE_TIMEOUT`, in seconds. -/
def offlineTimeout : Nat := 12

/-- The packets the worker sends and receives (the shape used in
ui/net_thread.rs). -/
inductive WPacket where
  | message (id : List Nat) (msgBody : List Nat)
  | presenceReq
  | presence (id : List Nat) (isJoin : Bool) (username : List Nat)
  | disconnect (id : List Nat)
  deriving Repr, DecidableEq

/-- Model of `NetThreadState`. -/
inductive NetThreadState where
  | needsUsername
  | needsInitialPresence
  | ready
  deriving Repr, DecidableEq

/-- Model of `UpdatePresenceKind` from ui/util.rs. -/
inductive UpdatePresenceKind where
  | boring
  | joinOrReconnect
  | usernameChange (former : List Nat)
  deriving Repr, DecidableEq

/-- The `UICommand` events the worker emits (ui/util.rs). -/
inductive UICmd where
  | alertUser
  | newMessage (id : List Nat) (username : List Nat) (msgBody : List Nat) (isSelf : Bool)
  | presenceUpdate (id : List Nat) (username : List Nat) (inactive : Bool)
      (kind : UpdatePresenceKind)
  | removePresence (id : List Nat) (username : List Nat)
  | errorOut
  deriving Repr, DecidableEq

/-- The `NetCommand`s the worker consumes (ui/util.rs); `SetEtherType`
carries no data the worker state model observes. -/
inductive NetCmd where
  | setInterface (name : List Nat)
  | setEtherType
  | sendMessage (msgBody : List Nat)
  | updateUsername (username : List Nat)
  | pauseHeartbeat (pause : Bool)
  | terminate
  deriving Repr, DecidableEq

/-- The worker's mutable state once a channel is open: local peer id and
username, heartbeat clock, roster (`online`: id to timestamp and username),
offline set, state machine position, and heartbeat pause flag. -/
structure WState where
  localId : List Nat
  username : List Nat
  lastHeartbeat : Nat
  online : List (List Nat × (Nat × List Nat))
  offline : List (List Nat)
  state : NetThreadState
  pauseHeartbeat : Bool
  deriving Repr, DecidableEq

/-- Model of `HashSet::insert`. -/
def sinsert (s : List (List Nat)) (k : List Nat) : List (List Nat) :=
  if k ∈ s then s else k :: s

/-- Model of `HashSet::remove`, also reporting whether the element was present. -/
def sremove (s : List (List Nat)) (k : List Nat) : Bool × List (List Nat) :=
  (decide (k ∈ s), s.filter fun e => e ≠ k)

/-- The username shown for authors absent from the roster. -/
def unknownName : List Nat := [117, 110, 107, 110, 111, 119, 110]

/-- The command-intake arm of the worker loop (lines 58-84 of
ui/net_thread.rs). Returns the new state, emitted UI events, broadcast
packets, and whether the loop iteration ends early (`Terminate` breaks;
a second `SetInterface` raises an error that ends the worker). -/
def handleCommand (ws : WState) (cmd : Option NetCmd) :
    WState × List UICmd × List WPacket × Bool :=
  match cmd with
  | none => (ws, [], [], false)
  | some .setEtherType => (ws, [], [], false)
  | some (.setInterface _) => (ws, [.errorOut], [], true)
  | some (.sendMessage msgBody) =>
    (ws, [.newMessage ws.localId ws.username msgBody true],
      [.message ws.localId msgBody], false)
  | some (.updateUsername newU) =>
    let ws1 := { ws with username := newU }
    if ws.state = .needsUsername then
      ({ ws1 with state := .needsInitialPresence }, [], [.presenceReq], false)
    else (ws1, [], [], false)
  | some .terminate => (ws, [], [.disconnect ws.localId], true)
  | some (.pauseHeartbeat pause) => ({ ws with pauseHeartbeat := pause }, [], [], false)

/-- The inbound-packet arm of the worker loop (lines 86-142 of
ui/net_thread.rs). -/
def handleRecv (ws : WState) (pkt : Option WPacket) (now : Nat) :
    WState × List UICmd × List WPacket :=
  match pkt with
  | none => (ws, [], [])
  | some (.message id msgBody) =>
    let uname := match alookup ws.online id with
      | some (_, u) => u
      | none => unknownName
    let alerts : List UICmd :=
      if id ≠ ws.localId ∧ listContains msgBody ws.username then [.alertUser] else []
    (ws, alerts ++ [.newMessage id uname msgBody false], [])
  | some .presenceReq =>
    (ws, [], [.presence ws.localId (ws.state = .needsInitialPresence) ws.username])
  | some (.presence presId isJoin uname) =>
    let old := alookup ws.online presId
    let ws1 := { ws with online := ainsert ws.online presId (now, uname) }
    let (evs, ws2) : List UICmd × WState := match old with
      | some (_, former) =>
        ([.presenceUpdate presId uname false (.usernameChange former)], ws1)
      | none =>
        let (wasOffline, offline1) := sremove ws.offline ws.localId
        ([.presenceUpdate presId uname false
            (if wasOffline ∨ isJoin then .joinOrReconnect else .boring)],
          { ws1 with offline := offline1 })
    let ws3 := if presId = ws.localId then { ws2 with state := .ready } else ws2
    (ws3, evs, [])
  | some (.disconnect id) =>
    match alookup ws.online id with
    | some (_, uname) =>
      ({ ws with online := aremove ws.online id }, [.removePresence id uname], [])
    | none => (ws, [], [])

/-- The heartbeat-and-roster-scan arm of the worker loop (lines 144-171 of
ui/net_thread.rs): when the interval has elapsed and the state is `Ready`,
broadcast a Presence unless paused, then sweep the roster, moving timed-out
entries to the offline set and flagging inactive ones. -/
def heartbeatStep (ws : WState) (now : Nat) :
    WState × List UICmd × List WPacket :=
  if now - ws.lastHeartbeat > heartbeatInterval ∧ ws.state = .ready then
    let sends : List WPacket :=
      if ¬ws.pauseHeartbeat then [.presence ws.localId false ws.username] else []
    let evs : List UICmd := ws.online.flatMap fun e =>
      if now - e.2.1 > offlineTimeout then [.removePresence e.1 e.2.2]
      else if now - e.2.1 > inactiveTimeout then
        [.presenceUpdate e.1 e.2.2 true .boring]
      else []
    let timedOut := (ws.online.filter fun e => now - e.2.1 > offlineTimeout).map
      fun e => e.1
    let offline1 := timedOut.foldl sinsert ws.offline
    let online1 := ws.online.filter fun e => ¬now - e.2.1 > offlineTimeout
    ({ ws with online := online1, offline := offline1, lastHeartbeat := now },
      evs, sends)
  else (ws, [], [])

/-- One full iteration of the worker loop body after a channel is open:
command intake, inbound packet, heartbeat. The final component reports an
early exit (terminate or repeated interface selection), which skips the
packet and heartbeat arms. -/
def loopStep (ws : WState) (cmd : Option NetCmd) (pkt : Option WPacket) (now : Nat) :
    WState × List UICmd × List WPacket × Bool :=
  match handleCommand ws cmd with
  | (ws1, evs1, sends1, true) => (ws1, evs1, sends1, true)
  | (ws1, evs1, sends1, false) =>
    let (ws2, evs2, sends2) := handleRecv ws1 pkt now
    let (ws3, evs3, sends3) := heartbeatStep ws2 now
    (ws3, evs1 ++ evs2 ++ evs3, sends1 ++ sends2 ++ sends3, false)

/-- The Message payload layout as the spec words it ("author PeerId (8) ‖
channel-length (8 bytes, big-endian unsigned) ‖ channel bytes ‖
compress(message bytes)", with nothing preceding the author), for
comparison against `Packet.serialize`. -/
def specMessageSerialize (author channel msgBody : List Nat) : List Nat :=
  author ++ toBE 8 channel.length ++ channel ++ smazCompress msgBody

/-! Helper lemmas. -/

theorem toBE_length (w n : Nat) : (toBE w n).length = w := by
  induction w generalizing n with
  | zero => simp [toBE]
  | succ w ih => simp [toBE, ih]

theorem foldl_toBE (w n a : Nat) :
    (toBE w n).foldl (fun acc b => acc * 256 + b) a = a * 256 ^ w + n % 256 ^ w := by
  induction w generalizing n a with
  | zero => simp [toBE, Nat.mod_one]
  | succ w ih =>
    rw [toBE, List.foldl_append, ih]
    simp only [List.foldl_cons, List.foldl_nil]
    have h1 : n / 256 % 256 ^ w = n % (256 * 256 ^ w) / 256 :=
      (Nat.mod_mul_right_div_self n 256 (256 ^ w)).symm
    have h2 : n % 256 = n % (256 * 256 ^ w) % 256 := by
      rw [Nat.mod_mod_of_dvd]
      exact Dvd.intro (256 ^ w) rfl
    have h3 : 256 ^ (w + 1) = 256 * 256 ^ w := by ring
    rw [h1, h2, h3]
    have h4 := Nat.div_add_mod (n % (256 * 256 ^ w)) 256
    ring_nf
    omega

theorem fromBE_toBE (w n : Nat) (h : n < 256 ^ w) : fromBE (toBE w n) = n := by
  rw [fromBE, foldl_toBE, Nat.mod_eq_of_lt h]
  ring

theorem findCode_some (l e : List Nat) (i : Nat) :
    ∀ (book : List (List Nat)) (s : Nat), findCode s book l = some (i, e) →
      s ≤ i ∧ book.get? (i - s) = some e ∧ e ≠ [] ∧ e.isPrefixOf l := by
  intro book
  induction book with
  | nil => intro s hs; simp [findCode] at hs
  | cons e0 es ih =>
    intro s hs
    by_cases hc : e0 ≠ [] ∧ e0.isPrefixOf l
    · rw [findCode, if_pos hc] at hs
      obtain ⟨hi, he⟩ : s = i ∧ e0 = e := by
        cases hs
        exact ⟨rfl, rfl⟩
      subst hi
      subst he
      simpa using hc
    · rw [findCode, if_neg hc] at hs
      obtain ⟨hle, hget, hrest⟩ := ih (s + 1) hs
      refine ⟨by omega, ?_, hrest⟩
      have : i - s = (i - (s + 1)) + 1 := by omega
      rw [this]
      simpa using hget

theorem smaz_roundtrip_aux (fuel : Nat) :
    ∀ l : List Nat, l.length ≤ fuel →
      smazDecompress (smazCompressAux fuel l) = some l := by
  induction fuel with
  | zero =>
    intro l h
    have hl : l = [] := List.eq_nil_of_length_eq_zero (by omega)
    subst hl
    rfl
  | succ fuel ih =>
    intro l h
    match l with
    | [] => rfl
    | b :: rest =>
      rw [smazCompressAux.eq_3]
      cases hfc : findCode 0 smazCodebook (b :: rest) with
      | some ie =>
        obtain ⟨-, hget, hne, hpre⟩ :=
          findCode_some (b :: rest) ie.2 ie.1 smazCodebook 0 (by simpa using hfc)
        simp only [Nat.sub_zero] at hget
        have hilt : ie.1 < smazCodebook.length := by
          by_contra hge
          rw [List.get?_eq_none.mpr (by omega)] at hget
          exact Option.noConfusion hget
        have hnot254 : ¬ie.1 = 254 := by
          have : smazCodebook.length = 25 := by rfl
          omega
        obtain ⟨t, ht⟩ := List.isPrefixOf_iff_prefix.mp hpre
        have hdrop : (b :: rest).drop ie.2.length = t := by
          rw [← ht, List.drop_left]
        have hlen : ((b :: rest).drop ie.2.length).length ≤ fuel := by
          have h1 : 0 < ie.2.length := List.length_pos.mpr hne
          have h2 : ie.2.length ≤ (b :: rest).length :=
            (List.isPrefixOf_iff_prefix.mp hpre).length_le
          simp only [List.length_drop]
          simp only [List.length_cons] at h ⊢
          omega
        rw [smazDecompress.eq_def]
        simp only [if_neg hnot254, hget, ih ((b :: rest).drop ie.2.length) hlen]
        rw [hdrop, ← ht]
      | none =>
        have hrec := ih rest (by simp only [List.length_cons] at h; omega)
        simp [smazDecompress, hrec]

theorem smaz_roundtrip (l : List Nat) :
    smazDecompress (smazCompress l) = some l :=
  smaz_roundtrip_aux l.length l le_rfl

theorem chunksAux_fuel (fuel : Nat) :
    ∀ l : List Nat, l.length ≤ fuel → chunksAux fuel l = chunks241 l := by
  have main : ∀ f1, ∀ f2 ≤ f1, ∀ l : List Nat, l.length ≤ f2 →
      chunksAux f2 l = chunksAux l.length l := by
    intro f1
    induction f1 with
    | zero =>
      intro f2 hf l hl
      have h2 : f2 = 0 := by omega
      have hl0 : l = [] := List.eq_nil_of_length_eq_zero (by omega)
      subst h2
      subst hl0
      rfl
    | succ f1 ih =>
      intro f2 hf l hl
      match f2, l with
      | 0, l =>
        have hl0 : l = [] := List.eq_nil_of_length_eq_zero (by omega)
        subst hl0
        rfl
      | f2 + 1, [] => rfl
      | f2 + 1, b :: rest =>
        rw [chunksAux, List.length_cons, chunksAux]
        have hd : ((b :: rest).drop 241).length ≤ f2 := by
          simp only [List.length_drop, List.length_cons] at *
          omega
        have hd2 : ((b :: rest).drop 241).length ≤ rest.length := by
          simp only [List.length_drop, List.length_cons]
          omega
        rw [ih f2 (by omega) _ hd, ih rest.length (by simp at hl; omega) _ hd2]
  intro l hl
  exact main fuel fuel le_rfl l hl

theorem chunks241_cons (b : Nat) (rest : List Nat) :
    chunks241 (b :: rest) =
      (b :: rest).take 241 :: chunks241 ((b :: rest).drop 241) := by
  rw [chunks241, List.length_cons, chunksAux]
  rw [chunksAux_fuel rest.length _ (by simp)]

theorem chunks241_flatten (l : List Nat) : (chunks241 l).flatten = l := by
  generalize hn : l.length = n
  induction n using Nat.strong_induction_on generalizing l with
  | _ n ih =>
    subst hn
    match l with
    | [] => rfl
    | b :: rest =>
      rw [chunks241_cons, List.flatten_cons,
        ih ((b :: rest).drop 241).length (by simp; omega) _ rfl,
        List.take_append_drop]

theorem chunks241_length (l : List Nat) :
    (chunks241 l).length = (l.length + 240) / 241 := by
  generalize hn : l.length = n
  induction n using Nat.strong_induction_on generalizing l with
  | _ n ih =>
    subst hn
    match l with
    | [] => rfl
    | b :: rest =>
      rw [chunks241_cons, List.length_cons,
        ih ((b :: rest).drop 241).length (by simp; omega) _ rfl]
      simp only [List.length_drop, List.length_cons]
      omega

theorem chunks241_mem_length (l c : List Nat) (hc : c ∈ chunks241 l) :
    c.length ≤ 241 := by
  generalize hn : l.length = n
  induction n using Nat.strong_induction_on generalizing l c with
  | _ n ih =>
    subst hn
    match l with
    | [] => simp [chunks241, chunksAux] at hc
    | b :: rest =>
      rw [chunks241_cons] at hc
      rcases List.mem_cons.mp hc with h | h
      · subst h
        exact List.length_take_le 241 (b :: rest)
      · exact ih ((b :: rest).drop 241).length (by simp; omega) _ _ h rfl

theorem chunks241_short (l : List Nat) (h0 : l ≠ []) (h : l.length ≤ 241) :
    chunks241 l = [l] := by
  match l with
  | [] => exact absurd rfl h0
  | b :: rest =>
    rw [chunks241_cons]
    have h1 : (b :: rest).take 241 = b :: rest := List.take_of_length_le h
    have h2 : (b :: rest).drop 241 = [] := List.drop_eq_nil_of_le h
    rw [h1, h2]
    rfl

theorem take_len_append {α : Type} (l₁ l₂ : List α) (n : Nat) (h : l₁.length = n) :
    (l₁ ++ l₂).take n = l₁ := by
  subst h
  exact List.take_left l₁ l₂

theorem drop_len_append {α : Type} (l₁ l₂ : List α) (n : Nat) (h : l₁.length = n) :
    (l₁ ++ l₂).drop n = l₂ := by
  subst h
  exact List.drop_left l₁ l₂

theorem deserialize_serialize_message (id author channel msgBody : List Nat)
    (hid : id.length = 8) (hauthor : author.length = 8)
    (hchan : validUtf8 channel) (hmsg : validUtf8 msgBody)
    (hsmall : channel.length < 256 ^ 8) :
    Packet.deserialize 0 (Packet.message id author channel msgBody).serialize =
      .value (some (.message id author channel msgBody)) := by
  have hts : (Packet.message id author channel msgBody).serialize =
      id ++ (author ++ (toBE 8 channel.length ++
        (channel ++ smazCompress msgBody))) := by
    simp [Packet.serialize]
  rw [hts]
  set data := id ++ (author ++ (toBE 8 channel.length ++
    (channel ++ smazCompress msgBody))) with hdata
  have hdlen : data.length = 24 + channel.length + (smazCompress msgBody).length := by
    simp [hdata, hid, hauthor, toBE_length]
    omega
  have hdrop8 : data.drop 8 = author ++ (toBE 8 channel.length ++
      (channel ++ smazCompress msgBody)) := drop_len_append _ _ 8 hid
  have hdrop16 : data.drop 16 = toBE 8 channel.length ++
      (channel ++ smazCompress msgBody) := by
    have : data.drop 16 = (data.drop 8).drop 8 := by
      rw [List.drop_drop]
    rw [this, hdrop8]
    exact drop_len_append _ _ 8 hauthor
  have hdrop24 : data.drop 24 = channel ++ smazCompress msgBody := by
    have : data.drop 24 = (data.drop 16).drop 8 := by
      rw [List.drop_drop]
    rw [this, hdrop16]
    exact drop_len_append _ _ 8 (toBE_length 8 channel.length)
  have hlenfield : (data.drop 16).take 8 = toBE 8 channel.length := by
    rw [hdrop16]
    exact take_len_append _ _ 8 (toBE_length 8 channel.length)
  have hfrom : fromBE ((data.drop 16).take 8) = channel.length := by
    rw [hlenfield]
    exact fromBE_toBE 8 channel.length hsmall
  have hchanfield : (data.drop 24).take channel.length = channel := by
    rw [hdrop24]
    exact take_len_append _ _ _ rfl
  have hcompfield : data.drop (24 + channel.length) = smazCompress msgBody := by
    have : data.drop (24 + channel.length) = (data.drop 24).drop channel.length := by
      rw [List.drop_drop]
    rw [this, hdrop24]
    exact drop_len_append _ _ _ rfl
  have hidfield : data.take 8 = id := take_len_append _ _ 8 hid
  have hauthorfield : (data.drop 8).take 8 = author := by
    rw [hdrop8]
    exact take_len_append _ _ 8 hauthor
  rw [Packet.deserialize]
  rw [if_pos (by omega)]
  rw [hfrom]
  rw [if_pos (by omega)]
  rw [hchanfield]
  rw [if_pos hchan]
  rw [hcompfield, smaz_roundtrip msgBody]
  simp [hmsg, hidfield, hauthorfield]

theorem deserialize_serialize_presence (id s : List Nat) (isJoin : Bool)
    (hid : id.length = 8) (hs : validUtf8 s) :
    Packet.deserialize 2 (Packet.presence id isJoin s).serialize =
      .value (some (.presence id isJoin s)) := by
  have hts : (Packet.presence id isJoin s).serialize =
      id ++ ([if isJoin then 1 else 0] ++ s) := by
    simp [Packet.serialize]
  rw [hts]
  set b : Nat := if isJoin then 1 else 0 with hb
  set data := id ++ ([b] ++ s) with hdata
  have hdlen : data.length = 9 + s.length := by
    simp [hdata, hid]
    omega
  have hidfield : data.take 8 = id := take_len_append _ _ 8 hid
  have hdrop8 : data.drop 8 = [b] ++ s := drop_len_append _ _ 8 hid
  have hget : data.getD 8 0 = b := by
    have h1 : data.getD 8 0 = (data.drop 8).getD 0 0 := by
      rw [List.getD_eq_getD_get?, List.getD_eq_getD_get?, List.get?_drop]
    rw [h1, hdrop8]
    rfl
  have hdrop9 : data.drop 9 = s := by
    have : data.drop 9 = (data.drop 8).drop 1 := by
      rw [List.drop_drop]
    rw [this, hdrop8]
    rfl
  have hjoin : decide (0 < data.getD 8 0) = isJoin := by
    rw [hget, hb]
    cases isJoin <;> rfl
  rw [Packet.deserialize]
  rw [if_pos (by omega)]
  rw [hdrop9]
  rw [if_pos hs, hidfield, hjoin]

theorem deserialize_serialize_disconnect (id : List Nat) (hid : id.length = 8) :
    Packet.deserialize 3 (Packet.disconnect id).serialize =
      .value (some (.disconnect id)) := by
  rw [Packet.deserialize]
  simp [Packet.serialize, hid]

theorem deserialize_serialize_reaction (id : List Nat) (c : Nat)
    (hid : id.length = 8) (hc : validScalar c) :
    Packet.deserialize 4 (Packet.reaction id c).serialize =
      .value (some (.reaction id c)) := by
  have hts : (Packet.reaction id c).serialize = id ++ toBE 4 c := by
    simp [Packet.serialize]
  rw [hts]
  set data := id ++ toBE 4 c with hdata
  have hdlen : data.length = 12 := by
    simp [hdata, hid, toBE_length]
  have hidfield : data.take 8 = id := take_len_append _ _ 8 hid
  have hdrop8 : data.drop 8 = toBE 4 c := drop_len_append _ _ 8 hid
  have hclt : c < 256 ^ 4 := by
    have : c < 0x110000 := by
      have := of_decide_eq_true hc
      exact this.1
    omega
  rw [Packet.deserialize]
  rw [if_pos (by omega), if_pos hdlen, hdrop8, fromBE_toBE 4 c hclt]
  rw [charFromU32, if_pos hc]
  rw [hidfield]

/-- Deserializing a well-formed packet's own serialization with its own tag
recovers the packet (the channel of a Message must denote a length fitting
in the 8-byte field, as any Rust string does). -/
theorem deserialize_serialize (p : Packet) (hwf : p.wf)
    (hsmall : ∀ id author channel msgBody,
      p = .message id author channel msgBody → channel.length < 256 ^ 8) :
    Packet.deserialize p.tag p.serialize = .value (some p) := by
  cases p with
  | message id author channel msgBody =>
    obtain ⟨h1, h2, h3, h4⟩ := hwf
    exact deserialize_serialize_message id author channel msgBody h1 h2 h3 h4
      (hsmall id author channel msgBody rfl)
  | presenceReq => rfl
  | presence id isJoin s => exact deserialize_serialize_presence id s isJoin hwf.1 hwf.2
  | disconnect id => exact deserialize_serialize_disconnect id hwf
  | reaction id c => exact deserialize_serialize_reaction id c hwf.1 hwf.2

theorem chunks241_eq_nil_iff (l : List Nat) : chunks241 l = [] ↔ l = [] := by
  constructor
  · intro h
    have hf := chunks241_flatten l
    rw [h] at hf
    exact hf.symm
  · intro h
    subst h
    rfl

theorem send_of_nil (p : Packet) (pid : List Nat) (h : p.serialize = []) :
    Channel.send p pid = .ok [⟨p.tag, 0, 0, pid, [46]⟩] := by
  simp only [Channel.send, h]
  rfl

theorem send_of_parts (p : Packet) (pid : List Nat) (h : p.serialize ≠ [])
    (hle : (chunks241 p.serialize).length ≤ 256) :
    Channel.send p pid = .ok ((chunks241 p.serialize).enum.map fun sp =>
      ⟨p.tag, sp.1, (chunks241 p.serialize).length - 1, pid, sp.2⟩) := by
  obtain ⟨c, cs, hc⟩ : ∃ c cs, chunks241 p.serialize = c :: cs := by
    cases hcc : chunks241 p.serialize with
    | nil => exact absurd ((chunks241_eq_nil_iff _).mp hcc) h
    | cons c cs => exact ⟨c, cs, rfl⟩
  have hnot : ¬(c :: cs).length - 1 > 255 := by
    rw [hc] at hle
    omega
  simp only [Channel.send, hc]
  rw [if_neg hnot]

theorem send_too_long (p : Packet) (pid : List Nat)
    (h : (chunks241 p.serialize).length > 256) :
    Channel.send p pid = .error .msgTooLong := by
  have hne : p.serialize ≠ [] := by
    intro hn
    rw [(chunks241_eq_nil_iff _).mpr hn] at h
    simp at h
  obtain ⟨c, cs, hc⟩ : ∃ c cs, chunks241 p.serialize = c :: cs := by
    cases hcc : chunks241 p.serialize with
    | nil => exact absurd ((chunks241_eq_nil_iff _).mp hcc) hne
    | cons c cs => exact ⟨c, cs, rfl⟩
  have hgt : (c :: cs).length - 1 > 255 := by
    rw [hc] at h
    omega
  simp only [Channel.send, hc]
  rw [if_pos hgt]

theorem send_single (p : Packet) (pid : List Nat) (h : p.serialize ≠ [])
    (hlen : p.serialize.length ≤ 241) :
    Channel.send p pid = .ok [⟨p.tag, 0, 0, pid, p.serialize⟩] := by
  have hc := chunks241_short p.serialize h hlen
  rw [send_of_parts p pid h (by rw [hc]; simp), hc]
  rfl

theorem serialize_channel_le (id author channel msgBody : List Nat)
    (hid : id.length = 8) :
    channel.length ≤ (Packet.message id author channel msgBody).serialize.length := by
  simp [Packet.serialize, hid]
  omega

/-- C1: every packet whose serialized payload is at most 241 bytes is sent
as exactly one fragment, and deserializing that fragment's inner bytes with
the packet's tag returns the packet itself. -/
theorem c1_single_fragment_roundtrip (p : Packet) (pid : List Nat)
    (hwf : p.wf) (hlen : p.serialize.length ≤ 241) :
    ∃ f : Frag, Channel.send p pid = .ok [f] ∧ f.tag = p.tag ∧ f.id = pid ∧
      f.seq = 0 ∧ f.total = 0 ∧
      Packet.deserialize p.tag f.inner = .value (some p) := by
  by_cases hnil : p.serialize = []
  · refine ⟨⟨p.tag, 0, 0, pid, [46]⟩, send_of_nil p pid hnil, rfl, rfl, rfl, rfl, ?_⟩
    cases p with
    | presenceReq => rfl
    | message id author channel msgBody =>
      exfalso
      have := congrArg List.length hnil
      simp [Packet.serialize, hwf.1] at this
    | presence id isJoin s =>
      exfalso
      have := congrArg List.length hnil
      simp [Packet.serialize, hwf.1] at this
    | disconnect id =>
      exfalso
      have hwf8 : id.length = 8 := hwf
      have := congrArg List.length hnil
      simp [Packet.serialize, hwf8] at this
    | reaction id c =>
      exfalso
      have := congrArg List.length hnil
      simp [Packet.serialize, hwf.1, toBE_length] at this
  · refine ⟨⟨p.tag, 0, 0, pid, p.serialize⟩, send_single p pid hnil hlen,
      rfl, rfl, rfl, rfl, ?_⟩
    refine deserialize_serialize p hwf ?_
    intro id author channel msgBody hp
    subst hp
    have h1 := serialize_channel_le id author channel msgBody hwf.1
    have : (256 : Nat) ^ 8 = 18446744073709551616 := by norm_num
    omega

/-- C1 witness: a concrete well-formed Message packet of serialized length
at most 241 round-trips through a single fragment. -/
theorem c1_witness :
    ∃ f : Frag,
      Channel.send (.message [1, 2, 3, 4, 5, 6, 7, 8] [8, 7, 6, 5, 4, 3, 2, 1]
        [99] [104, 105]) [0, 1, 2, 3, 4, 5, 6, 7] = .ok [f] ∧
      f.tag = (Packet.message [1, 2, 3, 4, 5, 6, 7, 8] [8, 7, 6, 5, 4, 3, 2, 1]
        [99] [104, 105]).tag ∧
      f.id = [0, 1, 2, 3, 4, 5, 6, 7] ∧ f.seq = 0 ∧ f.total = 0 ∧
      Packet.deserialize (Packet.message [1, 2, 3, 4, 5, 6, 7, 8]
        [8, 7, 6, 5, 4, 3, 2, 1] [99] [104, 105]).tag f.inner =
        .value (some (.message [1, 2, 3, 4, 5, 6, 7, 8] [8, 7, 6, 5, 4, 3, 2, 1]
          [99] [104, 105])) :=
  c1_single_fragment_roundtrip _ _ (by decide) (by decide)

/-- C2 counterexample: for a concrete Message packet, the serialized
payload is not the spec's "author PeerId first" layout — the 8-byte message
id precedes the author, so the first 8 bytes are the id, not the author. -/
theorem c2_counterexample :
    (Packet.message [1, 1, 1, 1, 1, 1, 1, 1] [2, 2, 2, 2, 2, 2, 2, 2]
        [] []).serialize ≠
      specMessageSerialize [2, 2, 2, 2, 2, 2, 2, 2] [] [] ∧
    ((Packet.message [1, 1, 1, 1, 1, 1, 1, 1] [2, 2, 2, 2, 2, 2, 2, 2]
        [] []).serialize).take 8 ≠ [2, 2, 2, 2, 2, 2, 2, 2] := by
  decide

/-- C2 amended: the serialized payload of a Message packet is the 8-byte
message id, then the author PeerId (8 bytes), then the channel length as an
8-byte big-endian unsigned integer, then the channel bytes, then the
compressed message body. -/
theorem c2_message_layout (id author channel msgBody : List Nat)
    (hid : id.length = 8) (hauthor : author.length = 8) :
    (Packet.message id author channel msgBody).serialize =
      id ++ specMessageSerialize author channel msgBody ∧
    ((Packet.message id author channel msgBody).serialize).take 8 = id ∧
    (((Packet.message id author channel msgBody).serialize).drop 8).take 8 = author ∧
    (((Packet.message id author channel msgBody).serialize).drop 16).take 8 =
      toBE 8 channel.length ∧
    (((Packet.message id author channel msgBody).serialize).drop 24).take
      channel.length = channel ∧
    ((Packet.message id author channel msgBody).serialize).drop
      (24 + channel.length) = smazCompress msgBody := by
  have hts : (Packet.message id author channel msgBody).serialize =
      id ++ (author ++ (toBE 8 channel.length ++
        (channel ++ smazCompress msgBody))) := by
    simp [Packet.serialize]
  rw [hts]
  set data := id ++ (author ++ (toBE 8 channel.length ++
    (channel ++ smazCompress msgBody))) with hdata
  have hdrop8 : data.drop 8 = author ++ (toBE 8 channel.length ++
      (channel ++ smazCompress msgBody)) := drop_len_append _ _ 8 hid
  have hdrop16 : data.drop 16 = toBE 8 channel.length ++
      (channel ++ smazCompress msgBody) := by
    have h1 : data.drop 16 = (data.drop 8).drop 8 := by
      rw [List.drop_drop]
    rw [h1, hdrop8]
    exact drop_len_append _ _ 8 hauthor
  have hdrop24 : data.drop 24 = channel ++ smazCompress msgBody := by
    have h1 : data.drop 24 = (data.drop 16).drop 8 := by
      rw [List.drop_drop]
    rw [h1, hdrop16]
    exact drop_len_append _ _ 8 (toBE_length 8 channel.length)
  refine ⟨by simp [specMessageSerialize], take_len_append _ _ 8 hid, ?_, ?_, ?_, ?_⟩
  · rw [hdrop8]
    exact take_len_append _ _ 8 hauthor
  · rw [hdrop16]
    exact take_len_append _ _ 8 (toBE_length 8 channel.length)
  · rw [hdrop24]
    exact take_len_append _ _ _ rfl
  · have h1 : data.drop (24 + channel.length) = (data.drop 24).drop channel.length := by
      rw [List.drop_drop]
    rw [h1, hdrop24]
    exact drop_len_append _ _ _ rfl

/-- C2 witness: the amended layout at a concrete Message packet. -/
theorem c2_witness :
    (Packet.message [1, 1, 1, 1, 1, 1, 1, 1] [2, 2, 2, 2, 2, 2, 2, 2]
        [99] [104, 105]).serialize =
      [1, 1, 1, 1, 1, 1, 1, 1] ++ specMessageSerialize [2, 2, 2, 2, 2, 2, 2, 2]
        [99] [104, 105] ∧
    ((Packet.message [1, 1, 1, 1, 1, 1, 1, 1] [2, 2, 2, 2, 2, 2, 2, 2]
        [99] [104, 105]).serialize).take 8 = [1, 1, 1, 1, 1, 1, 1, 1] ∧
    (((Packet.message [1, 1, 1, 1, 1, 1, 1, 1] [2, 2, 2, 2, 2, 2, 2, 2]
        [99] [104, 105]).serialize).drop 8).take 8 = [2, 2, 2, 2, 2, 2, 2, 2] ∧
    (((Packet.message [1, 1, 1, 1, 1, 1, 1, 1] [2, 2, 2, 2, 2, 2, 2, 2]
        [99] [104, 105]).serialize).drop 16).take 8 = toBE 8 ([99] : List Nat).length ∧
    (((Packet.message [1, 1, 1, 1, 1, 1, 1, 1] [2, 2, 2, 2, 2, 2, 2, 2]
        [99] [104, 105]).serialize).drop 24).take ([99] : List Nat).length = [99] ∧
    ((Packet.message [1, 1, 1, 1, 1, 1, 1, 1] [2, 2, 2, 2, 2, 2, 2, 2]
        [99] [104, 105]).serialize).drop (24 + ([99] : List Nat).length) =
      smazCompress [104, 105] :=
  c2_message_layout [1, 1, 1, 1, 1, 1, 1, 1] [2, 2, 2, 2, 2, 2, 2, 2]
    [99] [104, 105] (by decide) (by decide)

/-- C5: contrary to the claim that `Packet::deserialize` is total and
returns "no packet" on buffers too short for the fixed fields, short
buffers make the Rust slice and index operations panic: a Presence (tag 2)
with an empty or 8-byte buffer, a Message (tag 0) with fewer than 24 bytes,
a Reaction (tag 4) with fewer than 8 bytes, and a Message whose channel
length field points past the buffer end all panic. -/
theorem c5_short_buffer_panics :
    Packet.deserialize 2 [] = .panic ∧
    Packet.deserialize 2 [1, 2, 3, 4, 5, 6, 7, 8] = .panic ∧
    Packet.deserialize 0 (List.replicate 23 0) = .panic ∧
    Packet.deserialize 4 [1, 2, 3] = .panic ∧
    Packet.deserialize 0
      ([0, 0, 0, 0, 0, 0, 0, 0] ++ [0, 0, 0, 0, 0, 0, 0, 0] ++ toBE 8 100) =
      .panic := by
  decide

/-- C9: sending fails with the packet-too-long error precisely when the
serialized payload exceeds 256 fragments of 241 bytes; otherwise it emits
between 1 and 256 fragments in ascending seq order, all carrying the given
packet id and tag, each with at most 241 inner bytes and application bytes
fitting the one-byte length field. -/
theorem c9_send_fragmentation (p : Packet) (pid : List Nat) (hpid : pid.length = 8) :
    (Channel.send p pid = .error .msgTooLong ↔ 256 * 241 < p.serialize.length) ∧
    ∀ frags, Channel.send p pid = .ok frags →
      1 ≤ frags.length ∧ frags.length ≤ 256 ∧
      frags.map (fun f => f.seq) = List.range frags.length ∧
      ∀ f ∈ frags, f.id = pid ∧ f.tag = p.tag ∧ f.total = frags.length - 1 ∧
        f.inner.length ≤ 241 ∧ f.appBytes.length ≤ 255 := by
  have hclen := chunks241_length p.serialize
  by_cases hnil : p.serialize = []
  · have hsend := send_of_nil p pid hnil
    constructor
    · rw [hsend]
      constructor
      · intro h
        exact Except.noConfusion h
      · intro h
        rw [hnil] at h
        simp at h
    · intro frags hfr
      rw [hsend] at hfr
      obtain rfl : frags = [⟨p.tag, 0, 0, pid, [46]⟩] := by
        cases hfr
        rfl
      refine ⟨by simp, by simp, by simp [List.range_succ], ?_⟩
      intro f hf
      obtain rfl : f = ⟨p.tag, 0, 0, pid, [46]⟩ := by simpa using hf
      refine ⟨rfl, rfl, rfl, by simp, ?_⟩
      simp [Frag.appBytes, magicBytes, hpid]
  · by_cases hbig : 256 < (chunks241 p.serialize).length
    · have hsend := send_too_long p pid hbig
      constructor
      · rw [hsend]
        constructor
        · intro _
          rw [hclen] at hbig
          omega
        · intro _
          rfl
      · intro frags hfr
        rw [hsend] at hfr
        exact Except.noConfusion hfr
    · have hle : (chunks241 p.serialize).length ≤ 256 := by omega
      have hsend := send_of_parts p pid hnil hle
      have hpos : 1 ≤ (chunks241 p.serialize).length := by
        rcases Nat.eq_zero_or_pos (chunks241 p.serialize).length with h0 | h1
        · exact absurd ((chunks241_eq_nil_iff _).mp (List.eq_nil_of_length_eq_zero h0)) hnil
        · exact h1
      constructor
      · rw [hsend]
        constructor
        · intro h
          exact Except.noConfusion h
        · intro h
          rw [hclen] at hle
          omega
      · intro frags hfr
        rw [hsend] at hfr
        obtain rfl : frags = (chunks241 p.serialize).enum.map fun sp =>
            (⟨p.tag, sp.1, (chunks241 p.serialize).length - 1, pid, sp.2⟩ : Frag) := by
          cases hfr
          rfl
        have hflen : ((chunks241 p.serialize).enum.map fun sp =>
            (⟨p.tag, sp.1, (chunks241 p.serialize).length - 1, pid, sp.2⟩ : Frag)).length =
            (chunks241 p.serialize).length := by
          simp [List.enum_length]
        refine ⟨by rw [hflen]; exact hpos, by rw [hflen]; exact hle, ?_, ?_⟩
        · rw [hflen, List.map_map]
          have : ((fun f : Frag => f.seq) ∘ fun sp : Nat × List Nat =>
              (⟨p.tag, sp.1, (chunks241 p.serialize).length - 1, pid, sp.2⟩ : Frag)) =
              Prod.fst := rfl
          rw [this, List.enum_map_fst]
        · intro f hf
          rw [hflen]
          obtain ⟨sp, hsp, rfl⟩ := List.mem_map.mp hf
          have hmem : sp.2 ∈ chunks241 p.serialize := by
            have hg := List.mem_enum_iff_getElem?.mp hsp
            rw [← List.get?_eq_getElem?] at hg
            exact List.get?_mem hg
          have hil : sp.2.length ≤ 241 := chunks241_mem_length _ _ hmem
          refine ⟨rfl, rfl, rfl, hil, ?_⟩
          simp [Frag.appBytes, magicBytes, hpid]
          omega

/-- C9 witness: a concrete oversized Presence packet is rejected, and a
small one fragments into a single well-formed fragment. -/
theorem c9_witness :
    (Channel.send (.presence [1, 2, 3, 4, 5, 6, 7, 8] true
        (List.replicate 61688 97)) [3, 3, 3, 3, 3, 3, 3, 3] = .error .msgTooLong ↔
      256 * 241 < (Packet.presence [1, 2, 3, 4, 5, 6, 7, 8] true
        (List.replicate 61688 97)).serialize.length) ∧
    ∀ frags, Channel.send (.presence [1, 2, 3, 4, 5, 6, 7, 8] true
        (List.replicate 61688 97)) [3, 3, 3, 3, 3, 3, 3, 3] = .ok frags →
      1 ≤ frags.length ∧ frags.length ≤ 256 ∧
      frags.map (fun f => f.seq) = List.range frags.length ∧
      ∀ f ∈ frags, f.id = [3, 3, 3, 3, 3, 3, 3, 3] ∧
        f.tag = (Packet.presence [1, 2, 3, 4, 5, 6, 7, 8] true
          (List.replicate 61688 97)).tag ∧
        f.total = frags.length - 1 ∧ f.inner.length ≤ 241 ∧
        f.appBytes.length ≤ 255 :=
  c9_send_fragmentation _ _ (by decide)

theorem recv_drop (st : ChanState) (f : Frag)
    (h : st.recent.ringContains f.id = true) :
    recvStep st f = .value (st, none) := by
  simp [recvStep, h]

theorem alookup_aremove_self {β : Type} (m : List (List Nat × β)) (k : List Nat) :
    alookup (aremove m k) k = none := by
  induction m with
  | nil => rfl
  | cons e rest ih =>
    unfold aremove at ih ⊢
    rw [List.filter_cons]
    by_cases he : e.1 = k
    · rw [if_neg (by simp [he])]
      exact ih
    · rw [if_pos (by simp [he]), alookup, if_neg he]
      exact ih

theorem completeStep_cases (recent : Ringbuffer)
    (buf : List (List Nat × List (List Nat))) (f : Frag)
    (parts : List (List Nat)) (st' : ChanState) (r : Option Packet)
    (h : completeStep recent buf f parts = .value (st', r)) :
    (r = none ∧ st'.recent = recent) ∨
    (∃ p, r = some p ∧ st'.recent = recent.push f.id ∧
      alookup st'.buffer f.id = none) := by
  rw [completeStep] at h
  by_cases hall : parts.all (fun p => decide (p ≠ [])) = true
  · rw [if_pos hall] at h
    cases hd : Packet.deserialize f.tag parts.flatten with
    | panic =>
      rw [hd] at h
      exact PResult.noConfusion h
    | value o =>
      cases o with
      | some p =>
        rw [hd] at h
        obtain ⟨h1, h2⟩ : (⟨aremove buf f.id, recent.push f.id⟩ : ChanState) = st' ∧
            some p = r := by
          cases h
          exact ⟨rfl, rfl⟩
        refine .inr ⟨p, h2.symm, by rw [← h1], ?_⟩
        rw [← h1]
        exact alookup_aremove_self buf f.id
      | none =>
        rw [hd] at h
        cases h
        exact .inl ⟨rfl, rfl⟩
  · rw [if_neg hall] at h
    cases h
    exact .inl ⟨rfl, rfl⟩

theorem recv_cases (st st' : ChanState) (f : Frag) (r : Option Packet)
    (h : recvStep st f = .value (st', r)) :
    (r = none ∧ st'.recent = st.recent) ∨
    (∃ p, r = some p ∧ st'.recent = st.recent.push f.id ∧
      alookup st'.buffer f.id = none) := by
  rw [recvStep] at h
  split at h
  · cases h
    exact .inl ⟨rfl, rfl⟩
  · split at h
    · split at h
      · exact completeStep_cases _ _ _ _ _ _ h
      · exact PResult.noConfusion h
    · split at h
      · exact completeStep_cases _ _ _ _ _ _ h
      · exact PResult.noConfusion h

theorem ringContains_push_self (r : Ringbuffer) (x : List Nat)
    (h : r.index < r.data.length) : (r.push x).ringContains x = true := by
  rw [Ringbuffer.push, Ringbuffer.ringContains]
  rw [List.any_eq_true]
  refine ⟨some x, ?_, by simp⟩
  have hlt : r.index < (r.data.set r.index (some x)).length := by simpa using h
  refine List.mem_iff_getElem.mpr ⟨r.index, hlt, ?_⟩
  simp

theorem push_index_lt (r : Ringbuffer) (x : List Nat)
    (h : r.index < r.data.length) :
    (r.push x).index < (r.push x).data.length := by
  rw [Ringbuffer.push]
  simp only [List.length_set]
  exact Nat.mod_lt _ (by omega)

theorem processList_drops (i : List Nat) (fs : List Frag) (st : ChanState)
    (hall : ∀ f ∈ fs, f.id = i) (hc : st.recent.ringContains i = true) :
    processList st fs = .value (st, []) := by
  induction fs with
  | nil => rfl
  | cons f fs ih =>
    have hf : f.id = i := hall f (List.mem_cons_self f fs)
    have hstep := recv_drop st f (by rw [hf]; exact hc)
    have htail := ih fun g hg => hall g (List.mem_cons_of_mem f hg)
    simp only [processList, hstep, htail, Option.toList_none, List.nil_append]

theorem processList_delivered_contains (fs : List Frag) :
    ∀ (i : List Nat) (st st1 : ChanState) (p : Packet),
      (∀ f ∈ fs, f.id = i) → st.recent.index < st.recent.data.length →
      processList st fs = .value (st1, [p]) →
      st1.recent.ringContains i = true := by
  induction fs with
  | nil =>
    intro i st st1 p _ _ h
    rw [processList] at h
    simp at h
  | cons f fs ih =>
    intro i st st1 p hall hidx h
    have hf : f.id = i := hall f (List.mem_cons_self f fs)
    have htail : ∀ g ∈ fs, g.id = i := fun g hg => hall g (List.mem_cons_of_mem f hg)
    rw [processList] at h
    cases hr : recvStep st f with
    | panic =>
      rw [hr] at h
      exact PResult.noConfusion h
    | value pr =>
      obtain ⟨st2, r⟩ := pr
      rw [hr] at h
      simp only [] at h
      cases hp2 : processList st2 fs with
      | panic =>
        rw [hp2] at h
        exact PResult.noConfusion h
      | value pr2 =>
        obtain ⟨st3, ps⟩ := pr2
        rw [hp2] at h
        simp only [PResult.value.injEq, Prod.mk.injEq] at h
        obtain ⟨h1, h2⟩ := h
        rcases recv_cases st st2 f r hr with ⟨hrn, hrec⟩ | ⟨q, hrq, hrec, -⟩
        · subst hrn
          simp only [Option.toList_none, List.nil_append] at h2
          subst h2
          exact ih i st2 st1 p htail (by rw [hrec]; exact hidx) (h1 ▸ hp2)
        · subst hrq
          simp only [Option.toList_some, List.cons_append, List.cons.injEq] at h2
          obtain ⟨-, hps⟩ := h2
          have hcont2 : st2.recent.ringContains i = true := by
            rw [hrec, hf]
            exact ringContains_push_self _ _ hidx
          have hdrops := processList_drops i fs st2 htail hcont2
          rw [hdrops] at hp2
          obtain ⟨h3, -⟩ : st2 = st3 ∧ ([] : List Packet) = ps := by
            cases hp2
            exact ⟨rfl, rfl⟩
          rw [← h1, ← h3]
          exact hcont2

theorem flatten_singleton (l : List Nat) : ([l] : List (List Nat)).flatten = l := by
  simp

/-- C3: the receive engine delivers each packet id at most once — a
fragment whose id sits in the recency ring is dropped with no state change;
the ring changes only when a packet is delivered, and then exactly by
pushing that fragment's id (which also leaves the reassembly buffer);
replaying a fragment sequence that delivered exactly one packet delivers
nothing the second time; and a fragment with a fresh id that completes a
packet in one piece is still delivered, regardless of how many ids the ring
already holds. -/
theorem c3_dedup_exactly_once :
    (∀ (st : ChanState) (f : Frag), st.recent.ringContains f.id = true →
      recvStep st f = .value (st, none)) ∧
    (∀ (st st' : ChanState) (f : Frag) (r : Option Packet),
      recvStep st f = .value (st', r) →
      (r = none ∧ st'.recent = st.recent) ∨
      (∃ p, r = some p ∧ st'.recent = st.recent.push f.id ∧
        alookup st'.buffer f.id = none)) ∧
    (∀ (i : List Nat) (fs : List Frag) (st st1 : ChanState) (p : Packet),
      (∀ f ∈ fs, f.id = i) → st.recent.index < st.recent.data.length →
      processList st fs = .value (st1, [p]) →
      processList st1 fs = .value (st1, [])) ∧
    (∀ (st : ChanState) (f : Frag) (p : Packet),
      st.recent.ringContains f.id = false → alookup st.buffer f.id = none →
      f.seq = 0 → f.total = 0 → f.inner ≠ [] →
      Packet.deserialize f.tag f.inner = .value (some p) →
      ∃ st', recvStep st f = .value (st', some p)) := by
  refine ⟨recv_drop, recv_cases, ?_, ?_⟩
  · intro i fs st st1 p hall hidx h
    exact processList_drops i fs st1 hall
      (processList_delivered_contains fs i st st1 p hall hidx h)
  · intro st f p hnr hlk hseq htotal hne hdes
    refine ⟨⟨aremove ((f.id, (List.replicate (f.total + 1) []).set f.seq f.inner) ::
      st.buffer) f.id, st.recent.push f.id⟩, ?_⟩
    simp only [recvStep, hnr, Bool.false_eq_true, if_false, hlk]
    rw [if_pos (by omega)]
    have hparts : (List.replicate (f.total + 1) []).set f.seq f.inner = [f.inner] := by
      rw [htotal, hseq]
      rfl
    rw [completeStep, hparts,
      if_pos (by simpa using hne), flatten_singleton, hdes]

/-- C3 witness: a concrete fragment whose id is already in the ring is
dropped without state change, and a concrete fresh single-part fragment is
delivered. -/
theorem c3_witness :
    recvStep ⟨[], ⟨[some [5, 5, 5, 5, 5, 5, 5, 5]], 0⟩⟩
        ⟨1, 0, 0, [5, 5, 5, 5, 5, 5, 5, 5], [46]⟩ =
      .value (⟨[], ⟨[some [5, 5, 5, 5, 5, 5, 5, 5]], 0⟩⟩, none) ∧
    ∃ st', recvStep ⟨[], Ringbuffer.withCapacity 16⟩
        ⟨1, 0, 0, [7, 7, 7, 7, 7, 7, 7, 7], [46]⟩ = .value (st', some .presenceReq) :=
  ⟨c3_dedup_exactly_once.1 _ _ (by decide),
    c3_dedup_exactly_once.2.2.2 _ _ _ (by decide) (by decide) (by decide)
      (by decide) (by decide) (by decide)⟩

/-- C4 counterexample: with an id already holding a two-slot vector, a
fragment for that id whose total field conflicts (total + 1 = 1 ≠ 2) is not
ignored: its inner bytes are stored at slot seq (the state changes), and a
conflicting fragment whose seq is outside the vector panics instead of
being ignored. -/
theorem c4_counterexample :
    recvStep ⟨[([1, 2, 3, 4, 5, 6, 7, 8], [[], []])], Ringbuffer.withCapacity 16⟩
        ⟨1, 0, 0, [1, 2, 3, 4, 5, 6, 7, 8], [46]⟩ ≠
      .value (⟨[([1, 2, 3, 4, 5, 6, 7, 8], [[], []])],
        Ringbuffer.withCapacity 16⟩, none) ∧
    recvStep ⟨[([1, 2, 3, 4, 5, 6, 7, 8], [[], []])], Ringbuffer.withCapacity 16⟩
        ⟨1, 0, 0, [1, 2, 3, 4, 5, 6, 7, 8], [46]⟩ =
      .value (⟨[([1, 2, 3, 4, 5, 6, 7, 8], [[46], []])],
        Ringbuffer.withCapacity 16⟩, none) ∧
    recvStep ⟨[([1, 2, 3, 4, 5, 6, 7, 8], [[], []])], Ringbuffer.withCapacity 16⟩
        ⟨1, 2, 0, [1, 2, 3, 4, 5, 6, 7, 8], [46]⟩ = .panic := by
  exact ⟨by decide, by decide, by decide⟩

/-- C4 amended: a further fragment for a PacketId that already has a slot
vector is processed without consulting its total field: if seq is a valid
index the inner bytes are stored at slots[seq] and completion is checked
against the original vector, and the outcome is identical for every value
of total; if seq is out of bounds the engine panics rather than ignoring
the fragment. -/
theorem c4_conflicting_total (st : ChanState) (f : Frag)
    (parts : List (List Nat)) (hlk : alookup st.buffer f.id = some parts)
    (hnr : st.recent.ringContains f.id = false) :
    (parts.length ≤ f.seq → recvStep st f = .panic) ∧
    (f.seq < parts.length →
      recvStep st f = completeStep st.recent
        (aset st.buffer f.id (parts.set f.seq f.inner)) f
        (parts.set f.seq f.inner) ∧
      ∀ t, recvStep st ⟨f.tag, f.seq, t, f.id, f.inner⟩ = recvStep st f) := by
  constructor
  · intro hge
    simp only [recvStep, hnr, Bool.false_eq_true, if_false, hlk]
    rw [if_neg (by omega)]
  · intro hlt
    constructor
    · simp only [recvStep, hnr, Bool.false_eq_true, if_false, hlk]
      rw [if_pos hlt]
    · intro t
      simp only [recvStep, hlk, completeStep]

/-- C4 witness: the amended behavior at a concrete state — an in-bounds
conflicting fragment is stored, and total is immaterial. -/
theorem c4_witness :
    (([([9, 9, 9, 9, 9, 9, 9, 9], [[], [], []])] : List (List Nat × List (List Nat))).length ≤
        (⟨1, 5, 0, [9, 9, 9, 9, 9, 9, 9, 9], [46]⟩ : Frag).seq →
      recvStep ⟨[([9, 9, 9, 9, 9, 9, 9, 9], [[], [], []])], Ringbuffer.withCapacity 16⟩
        ⟨1, 5, 0, [9, 9, 9, 9, 9, 9, 9, 9], [46]⟩ = .panic) ∧
    ((⟨1, 5, 0, [9, 9, 9, 9, 9, 9, 9, 9], [46]⟩ : Frag).seq <
        ([[], [], []] : List (List Nat)).length →
      recvStep ⟨[([9, 9, 9, 9, 9, 9, 9, 9], [[], [], []])], Ringbuffer.withCapacity 16⟩
          ⟨1, 5, 0, [9, 9, 9, 9, 9, 9, 9, 9], [46]⟩ =
        completeStep (Ringbuffer.withCapacity 16)
          (aset [([9, 9, 9, 9, 9, 9, 9, 9], [[], [], []])] [9, 9, 9, 9, 9, 9, 9, 9]
            (([[], [], []] : List (List Nat)).set 5 [46]))
          ⟨1, 5, 0, [9, 9, 9, 9, 9, 9, 9, 9], [46]⟩
          (([[], [], []] : List (List Nat)).set 5 [46]) ∧
      ∀ t, recvStep ⟨[([9, 9, 9, 9, 9, 9, 9, 9], [[], [], []])], Ringbuffer.withCapacity 16⟩
          ⟨1, 5, t, [9, 9, 9, 9, 9, 9, 9, 9], [46]⟩ =
        recvStep ⟨[([9, 9, 9, 9, 9, 9, 9, 9], [[], [], []])], Ringbuffer.withCapacity 16⟩
          ⟨1, 5, 0, [9, 9, 9, 9, 9, 9, 9, 9], [46]⟩) := by
  have hlen : ([[], [], []] : List (List Nat)).length ≤
      (⟨1, 5, 0, [9, 9, 9, 9, 9, 9, 9, 9], [46]⟩ : Frag).seq := by decide
  have := c4_conflicting_total
    ⟨[([9, 9, 9, 9, 9, 9, 9, 9], [[], [], []])], Ringbuffer.withCapacity 16⟩
    ⟨1, 5, 0, [9, 9, 9, 9, 9, 9, 9, 9], [46]⟩ [[], [], []] (by decide) (by decide)
  exact ⟨fun _ => this.1 hlen, this.2⟩

theorem alookup_aset_self {β : Type} (m : List (List Nat × β)) (k : List Nat)
    (v w : β) (h : alookup m k = some w) : alookup (aset m k v) k = some v := by
  induction m with
  | nil => exact Option.noConfusion h
  | cons e rest ih =>
    unfold aset at ih ⊢
    rw [List.map_cons]
    by_cases he : e.1 = k
    · rw [if_pos he, alookup, if_pos rfl]
    · rw [alookup, if_neg he] at h
      rw [if_neg he, alookup, if_neg he]
      exact ih h

theorem alookup_aset_ne {β : Type} (m : List (List Nat × β)) (k k' : List Nat)
    (v : β) (hk : k' ≠ k) : alookup (aset m k v) k' = alookup m k' := by
  induction m with
  | nil => rfl
  | cons e rest ih =>
    unfold aset at ih ⊢
    rw [List.map_cons]
    by_cases he : e.1 = k
    · rw [if_pos he, alookup, if_neg (fun hh => hk hh.symm), alookup,
        if_neg (by rw [he]; exact fun hh => hk hh.symm)]
      exact ih
    · rw [if_neg he, alookup, alookup]
      by_cases he' : e.1 = k'
      · rw [if_pos he', if_pos he']
      · rw [if_neg he', if_neg he']
        exact ih

theorem alookup_ainsert_self {β : Type} (m : List (List Nat × β)) (k : List Nat)
    (v : β) : alookup (ainsert m k v) k = some v := by
  unfold ainsert
  by_cases hp : (alookup m k).isSome
  · rw [if_pos hp]
    obtain ⟨w, hw⟩ := Option.isSome_iff_exists.mp hp
    exact alookup_aset_self m k v w hw
  · rw [if_neg hp, alookup, if_pos rfl]

theorem alookup_ainsert_ne {β : Type} (m : List (List Nat × β)) (k k' : List Nat)
    (v : β) (hk : k' ≠ k) : alookup (ainsert m k v) k' = alookup m k' := by
  unfold ainsert
  by_cases hp : (alookup m k).isSome
  · rw [if_pos hp]
    exact alookup_aset_ne m k k' v hk
  · rw [if_neg hp, alookup, if_neg (fun hh => hk hh.symm)]

theorem handleRecv_presence_existing (ws : WState) (presId : List Nat)
    (isJoin : Bool) (uname : List Nat) (now t0 : Nat) (former0 : List Nat)
    (hlk : alookup ws.online presId = some (t0, former0)) :
    handleRecv ws (some (.presence presId isJoin uname)) now =
      (if presId = ws.localId then
        { ws with online := ainsert ws.online presId (now, uname), state := .ready }
       else { ws with online := ainsert ws.online presId (now, uname) },
       [.presenceUpdate presId uname false (.usernameChange former0)],
       ([] : List WPacket)) := by
  simp only [handleRecv, hlk]

theorem handleRecv_presence_new (ws : WState) (presId : List Nat)
    (isJoin : Bool) (uname : List Nat) (now : Nat)
    (hlk : alookup ws.online presId = none) :
    handleRecv ws (some (.presence presId isJoin uname)) now =
      (if presId = ws.localId then
        { ws with
          state := .ready
          online := ainsert ws.online presId (now, uname)
          offline := ws.offline.filter (fun e => e ≠ ws.localId) }
       else
        { ws with
          online := ainsert ws.online presId (now, uname)
          offline := ws.offline.filter (fun e => e ≠ ws.localId) },
       [.presenceUpdate presId uname false
         (if ws.localId ∈ ws.offline ∨ isJoin then .joinOrReconnect else .boring)],
       ([] : List WPacket)) := by
  simp only [handleRecv, hlk, sremove]
  simp

/-- C6 counterexample: a Presence from a peer already in the roster with an
unchanged username still makes the worker emit a PresenceUpdate of kind
UsernameChange — contradicting the claim that this kind is emitted only
when the username changed. -/
theorem c6_counterexample :
    (handleRecv
        ⟨[9, 9, 9, 9, 9, 9, 9, 9], [], 0,
          [([1, 1, 1, 1, 1, 1, 1, 1], (5, [98, 111, 98]))], [], .ready, false⟩
        (some (.presence [1, 1, 1, 1, 1, 1, 1, 1] false [98, 111, 98])) 10).2.1 =
      [.presenceUpdate [1, 1, 1, 1, 1, 1, 1, 1] [98, 111, 98] false
        (.usernameChange [98, 111, 98])] := by
  decide

/-- C6 amended: on an inbound Presence(pres_id, is_join, username) the
worker upserts pres_id into the roster with a fresh timestamp and emits
exactly one PresenceUpdate; its kind is UsernameChange(former) precisely
when a roster entry existed, whether or not the username changed; for a new
entry the kind is JoinOrReconnect exactly when is_join is true or the local
peer id (not pres_id) was in the offline set, which the code also removes
from the offline set, and Boring otherwise. -/
theorem c6_presence_upsert (ws : WState) (presId : List Nat) (isJoin : Bool)
    (uname : List Nat) (now : Nat) :
    (handleRecv ws (some (.presence presId isJoin uname)) now).2.2 = [] ∧
    alookup (handleRecv ws (some (.presence presId isJoin uname)) now).1.online
      presId = some (now, uname) ∧
    (∀ k, k ≠ presId →
      alookup (handleRecv ws (some (.presence presId isJoin uname)) now).1.online k =
        alookup ws.online k) ∧
    (∀ t former, alookup ws.online presId = some (t, former) →
      (handleRecv ws (some (.presence presId isJoin uname)) now).2.1 =
        [.presenceUpdate presId uname false (.usernameChange former)] ∧
      (handleRecv ws (some (.presence presId isJoin uname)) now).1.offline =
        ws.offline) ∧
    (alookup ws.online presId = none →
      (handleRecv ws (some (.presence presId isJoin uname)) now).2.1 =
        [.presenceUpdate presId uname false
          (if ws.localId ∈ ws.offline ∨ isJoin then .joinOrReconnect else .boring)] ∧
      (handleRecv ws (some (.presence presId isJoin uname)) now).1.offline =
        ws.offline.filter fun e => e ≠ ws.localId) := by
  cases hlk : alookup ws.online presId with
  | some tf =>
    obtain ⟨t0, former0⟩ := tf
    have heq := handleRecv_presence_existing ws presId isJoin uname now t0 former0 hlk
    have honline : (handleRecv ws (some (.presence presId isJoin uname)) now).1.online =
        ainsert ws.online presId (now, uname) := by
      rw [heq]
      by_cases hloc : presId = ws.localId <;> simp [hloc]
    have hoffline : (handleRecv ws (some (.presence presId isJoin uname)) now).1.offline =
        ws.offline := by
      rw [heq]
      by_cases hloc : presId = ws.localId <;> simp [hloc]
    have hevs : (handleRecv ws (some (.presence presId isJoin uname)) now).2.1 =
        [.presenceUpdate presId uname false (.usernameChange former0)] := by
      rw [heq]
    have hsends : (handleRecv ws (some (.presence presId isJoin uname)) now).2.2 =
        [] := by
      rw [heq]
    refine ⟨hsends, ?_, ?_, ?_, fun hnone => Option.noConfusion hnone⟩
    · rw [honline]
      exact alookup_ainsert_self ws.online presId (now, uname)
    · intro k hk
      rw [honline]
      exact alookup_ainsert_ne ws.online presId k (now, uname) hk
    · intro t former hf
      obtain ⟨-, h2⟩ : t0 = t ∧ former0 = former := by
        cases hf
        exact ⟨rfl, rfl⟩
      subst h2
      exact ⟨hevs, hoffline⟩
  | none =>
    have heq := handleRecv_presence_new ws presId isJoin uname now hlk
    have honline : (handleRecv ws (some (.presence presId isJoin uname)) now).1.online =
        ainsert ws.online presId (now, uname) := by
      rw [heq]
      by_cases hloc : presId = ws.localId <;> simp [hloc]
    have hoffline : (handleRecv ws (some (.presence presId isJoin uname)) now).1.offline =
        ws.offline.filter (fun e => e ≠ ws.localId) := by
      rw [heq]
      by_cases hloc : presId = ws.localId <;> simp [hloc]
    have hevs : (handleRecv ws (some (.presence presId isJoin uname)) now).2.1 =
        [.presenceUpdate presId uname false
          (if ws.localId ∈ ws.offline ∨ isJoin then .joinOrReconnect else .boring)] := by
      rw [heq]
    have hsends : (handleRecv ws (some (.presence presId isJoin uname)) now).2.2 =
        [] := by
      rw [heq]
    refine ⟨hsends, ?_, ?_,
      fun t former hf => Option.noConfusion hf,
      fun hnone => ⟨hevs, hoffline⟩⟩
    · rw [honline]
      exact alookup_ainsert_self ws.online presId (now, uname)
    · intro k hk
      rw [honline]
      exact alookup_ainsert_ne ws.online presId k (now, uname) hk

/-- C6 witness: the amended behavior at a concrete state, both for an
existing entry and for a new peer whose Presence carries is_join. -/
theorem c6_witness :
    alookup (handleRecv
        ⟨[9, 9, 9, 9, 9, 9, 9, 9], [], 0,
          [([1, 1, 1, 1, 1, 1, 1, 1], (5, [98, 111, 98]))], [], .ready, false⟩
        (some (.presence [1, 1, 1, 1, 1, 1, 1, 1] false [114, 111, 98])) 10).1.online
      [1, 1, 1, 1, 1, 1, 1, 1] = some (10, [114, 111, 98]) ∧
    (handleRecv
        ⟨[9, 9, 9, 9, 9, 9, 9, 9], [], 0,
          [([1, 1, 1, 1, 1, 1, 1, 1], (5, [98, 111, 98]))], [], .ready, false⟩
        (some (.presence [1, 1, 1, 1, 1, 1, 1, 1] false [114, 111, 98])) 10).2.1 =
      [.presenceUpdate [1, 1, 1, 1, 1, 1, 1, 1] [114, 111, 98] false
        (.usernameChange [98, 111, 98])] := by
  have h := c6_presence_upsert
    ⟨[9, 9, 9, 9, 9, 9, 9, 9], [], 0,
      [([1, 1, 1, 1, 1, 1, 1, 1], (5, [98, 111, 98]))], [], .ready, false⟩
    [1, 1, 1, 1, 1, 1, 1, 1] false [114, 111, 98] 10
  exact ⟨h.2.1, (h.2.2.2.1 5 [98, 111, 98] (by decide)).1⟩

theorem mem_sinsert (s : List (List Nat)) (k i : List Nat) :
    i ∈ sinsert s k ↔ i = k ∨ i ∈ s := by
  unfold sinsert
  by_cases hk : k ∈ s
  · rw [if_pos hk]
    constructor
    · exact fun h => .inr h
    · rintro (rfl | h)
      · exact hk
      · exact h
  · rw [if_neg hk]
    exact List.mem_cons

theorem mem_foldl_sinsert (ks : List (List Nat)) :
    ∀ (s : List (List Nat)) (i : List Nat),
      i ∈ ks.foldl sinsert s ↔ i ∈ s ∨ i ∈ ks := by
  induction ks with
  | nil => simp
  | cons k ks ih =>
    intro s i
    rw [List.foldl_cons, ih (sinsert s k) i, mem_sinsert]
    simp [List.mem_cons]
    tauto

/-- C7 counterexample: with heartbeats paused but the interval elapsed and
the state Ready, the worker still performs the roster scan — it emits a
RemovePresence for a timed-out entry and mutates the state — contradicting
the claim that with heartbeats paused neither the broadcast nor the scan
happens. -/
theorem c7_counterexample :
    (heartbeatStep
        ⟨[9, 9, 9, 9, 9, 9, 9, 9], [], 0,
          [([1, 1, 1, 1, 1, 1, 1, 1], (0, [98]))], [], .ready, true⟩ 13).2.1 =
      [.removePresence [1, 1, 1, 1, 1, 1, 1, 1] [98]] ∧
    heartbeatStep
        ⟨[9, 9, 9, 9, 9, 9, 9, 9], [], 0,
          [([1, 1, 1, 1, 1, 1, 1, 1], (0, [98]))], [], .ready, true⟩ 13 ≠
      (⟨[9, 9, 9, 9, 9, 9, 9, 9], [], 0,
          [([1, 1, 1, 1, 1, 1, 1, 1], (0, [98]))], [], .ready, true⟩, [], []) := by
  exact ⟨by decide, by decide⟩

/-- C7 amended: the Presence broadcast happens exactly when the heartbeat
interval has elapsed, the state is Ready, and heartbeats are not paused;
the roster scan — moving timed-out entries to the offline set with a
RemovePresence event and flagging inactive entries — happens exactly when
the interval has elapsed and the state is Ready, regardless of the pause
flag; otherwise nothing changes and nothing is emitted. -/
theorem c7_heartbeat_gating (ws : WState) (now : Nat) :
    ((heartbeatStep ws now).2.2 =
      if now - ws.lastHeartbeat > heartbeatInterval ∧ ws.state = .ready ∧
          ¬ws.pauseHeartbeat
      then [.presence ws.localId false ws.username] else []) ∧
    (¬(now - ws.lastHeartbeat > heartbeatInterval ∧ ws.state = .ready) →
      heartbeatStep ws now = (ws, [], [])) ∧
    (now - ws.lastHeartbeat > heartbeatInterval ∧ ws.state = .ready →
      (∀ i u, .removePresence i u ∈ (heartbeatStep ws now).2.1 ↔
        ∃ t, (i, (t, u)) ∈ ws.online ∧ now - t > offlineTimeout) ∧
      (∀ i u, .presenceUpdate i u true .boring ∈ (heartbeatStep ws now).2.1 ↔
        ∃ t, (i, (t, u)) ∈ ws.online ∧ ¬now - t > offlineTimeout ∧
          now - t > inactiveTimeout) ∧
      (∀ i, i ∈ (heartbeatStep ws now).1.offline ↔
        i ∈ ws.offline ∨ ∃ t u, (i, (t, u)) ∈ ws.online ∧ now - t > offlineTimeout) ∧
      (∀ e, e ∈ (heartbeatStep ws now).1.online ↔
        e ∈ ws.online ∧ ¬now - e.2.1 > offlineTimeout) ∧
      (heartbeatStep ws now).1.lastHeartbeat = now) := by
  by_cases hc : now - ws.lastHeartbeat > heartbeatInterval ∧ ws.state = .ready
  · have heq : heartbeatStep ws now =
        ({ ws with
           online := ws.online.filter fun e => ¬now - e.2.1 > offlineTimeout
           offline := ((ws.online.filter fun e => now - e.2.1 > offlineTimeout).map
             fun e => e.1).foldl sinsert ws.offline
           lastHeartbeat := now },
         ws.online.flatMap fun e =>
           if now - e.2.1 > offlineTimeout then [.removePresence e.1 e.2.2]
           else if now - e.2.1 > inactiveTimeout then
             [.presenceUpdate e.1 e.2.2 true .boring]
           else [],
         if ¬ws.pauseHeartbeat then [.presence ws.localId false ws.username]
         else []) := by
      rw [heartbeatStep, if_pos hc]
    refine ⟨?_, fun hn => absurd hc hn, fun _ => ⟨?_, ?_, ?_, ?_, ?_⟩⟩
    · rw [heq]
      by_cases hp : ws.pauseHeartbeat <;> simp [hp, hc.1, hc.2]
    · intro i u
      rw [heq]
      simp only [List.mem_flatMap]
      constructor
      · rintro ⟨⟨i', t', u'⟩, he, hxe⟩
        by_cases h1 : now - t' > offlineTimeout
        · rw [if_pos h1] at hxe
          simp only [List.mem_singleton, UICmd.removePresence.injEq] at hxe
          obtain ⟨rfl, rfl⟩ := hxe
          exact ⟨t', he, h1⟩
        · rw [if_neg h1] at hxe
          by_cases h2 : now - t' > inactiveTimeout
          · rw [if_pos h2] at hxe
            simp at hxe
          · rw [if_neg h2] at hxe
            simp at hxe
      · rintro ⟨t, ht, hgt⟩
        exact ⟨(i, (t, u)), ht, by rw [if_pos hgt]; exact List.mem_singleton.mpr rfl⟩
    · intro i u
      rw [heq]
      simp only [List.mem_flatMap]
      constructor
      · rintro ⟨⟨i', t', u'⟩, he, hxe⟩
        by_cases h1 : now - t' > offlineTimeout
        · rw [if_pos h1] at hxe
          simp at hxe
        · rw [if_neg h1] at hxe
          by_cases h2 : now - t' > inactiveTimeout
          · rw [if_pos h2] at hxe
            simp only [List.mem_singleton, UICmd.presenceUpdate.injEq] at hxe
            obtain ⟨rfl, rfl, -, -⟩ := hxe
            exact ⟨t', he, h1, h2⟩
          · rw [if_neg h2] at hxe
            simp at hxe
      · rintro ⟨t, ht, hn1, hgt⟩
        exact ⟨(i, (t, u)), ht,
          by rw [if_neg hn1, if_pos hgt]; exact List.mem_singleton.mpr rfl⟩
    · intro i
      rw [heq]
      simp only [mem_foldl_sinsert, List.mem_map, List.mem_filter]
      constructor
      · rintro (h | ⟨⟨i', t', u'⟩, ⟨he, hf⟩, rfl⟩)
        · exact .inl h
        · exact .inr ⟨t', u', he, of_decide_eq_true hf⟩
      · rintro (h | ⟨t, u, ht, hgt⟩)
        · exact .inl h
        · exact .inr ⟨(i, (t, u)), ⟨ht, decide_eq_true hgt⟩, rfl⟩
    · intro e
      rw [heq]
      simp only [List.mem_filter]
      constructor
      · rintro ⟨he, hf⟩
        exact ⟨he, of_decide_eq_true hf⟩
      · rintro ⟨he, hf⟩
        exact ⟨he, decide_eq_true hf⟩
    · rw [heq]
  · have heq : heartbeatStep ws now = (ws, [], []) := by
      rw [heartbeatStep, if_neg hc]
    refine ⟨?_, fun _ => heq, fun h => absurd h hc⟩
    rw [heq]
    have : ¬(now - ws.lastHeartbeat > heartbeatInterval ∧ ws.state = .ready ∧
        ¬ws.pauseHeartbeat) := fun h => hc ⟨h.1, h.2.1⟩
    rw [if_neg this]

/-- C7 witness: at a concrete non-elapsed instant the heartbeat step is a
no-op, and at a concrete elapsed instant with pause off the broadcast list
is the single Presence packet. -/
theorem c7_witness :
    heartbeatStep
        ⟨[9, 9, 9, 9, 9, 9, 9, 9], [], 0, [], [], .ready, false⟩ 1 =
      (⟨[9, 9, 9, 9, 9, 9, 9, 9], [], 0, [], [], .ready, false⟩, [], []) ∧
    (heartbeatStep
        ⟨[9, 9, 9, 9, 9, 9, 9, 9], [97], 0, [], [], .ready, false⟩ 4).2.2 =
      [.presence [9, 9, 9, 9, 9, 9, 9, 9] false [97]] := by
  constructor
  · exact (c7_heartbeat_gating
      ⟨[9, 9, 9, 9, 9, 9, 9, 9], [], 0, [], [], .ready, false⟩ 1).2.1 (by decide)
  · have h := (c7_heartbeat_gating
      ⟨[9, 9, 9, 9, 9, 9, 9, 9], [97], 0, [], [], .ready, false⟩ 4).1
    rw [h]
    decide

theorem handleCommand_localId (ws : WState) (cmd : Option NetCmd) :
    (handleCommand ws cmd).1.localId = ws.localId := by
  cases cmd with
  | none => rfl
  | some c =>
    cases c with
    | updateUsername u =>
      by_cases hs : ws.state = .needsUsername <;> simp [handleCommand, hs]
    | setInterface n => rfl
    | setEtherType => rfl
    | sendMessage m => rfl
    | pauseHeartbeat b => rfl
    | terminate => rfl

theorem handleCommand_state (ws : WState) (cmd : Option NetCmd)
    (h : ws.state = .needsInitialPresence) :
    (handleCommand ws cmd).1.state = .needsInitialPresence := by
  cases cmd with
  | none => exact h
  | some c =>
    cases c with
    | updateUsername u =>
      have hs : ¬ws.state = .needsUsername := by rw [h]; exact fun hh => by cases hh
      simp [handleCommand, hs, h]
    | setInterface n => exact h
    | setEtherType => exact h
    | sendMessage m => exact h
    | pauseHeartbeat b => exact h
    | terminate => exact h

theorem handleCommand_early (ws : WState) (cmd : Option NetCmd)
    (h : (handleCommand ws cmd).2.2.2 = true) :
    (handleCommand ws cmd).1.state = ws.state := by
  cases cmd with
  | none => rfl
  | some c =>
    cases c with
    | updateUsername u =>
      by_cases hs : ws.state = .needsUsername <;> simp [handleCommand, hs] at h
    | setInterface n => rfl
    | setEtherType => rfl
    | sendMessage m => rfl
    | pauseHeartbeat b => rfl
    | terminate => rfl

theorem handleRecv_state_presence (ws : WState) (presId : List Nat)
    (isJoin : Bool) (uname : List Nat) (now : Nat) :
    (handleRecv ws (some (.presence presId isJoin uname)) now).1.state =
      if presId = ws.localId then .ready else ws.state := by
  cases hlk : alookup ws.online presId with
  | some tf =>
    obtain ⟨t0, former0⟩ := tf
    rw [handleRecv_presence_existing ws presId isJoin uname now t0 former0 hlk]
    by_cases hloc : presId = ws.localId <;> simp [hloc]
  | none =>
    rw [handleRecv_presence_new ws presId isJoin uname now hlk]
    by_cases hloc : presId = ws.localId <;> simp [hloc]

theorem handleRecv_state_other (ws : WState) (pkt : Option WPacket) (now : Nat)
    (h : ∀ presId isJoin uname, pkt ≠ some (.presence presId isJoin uname)) :
    (handleRecv ws pkt now).1.state = ws.state := by
  cases pkt with
  | none => rfl
  | some p =>
    cases p with
    | presence presId isJoin uname => exact absurd rfl (h presId isJoin uname)
    | message id msgBody => simp [handleRecv]
    | presenceReq => rfl
    | disconnect id =>
      cases hlk : alookup ws.online id with
      | some tu =>
        obtain ⟨t, u⟩ := tu
        simp [handleRecv, hlk]
      | none => simp [handleRecv, hlk]

theorem heartbeatStep_state (ws : WState) (now : Nat) :
    (heartbeatStep ws now).1.state = ws.state := by
  rw [heartbeatStep]
  by_cases hc : now - ws.lastHeartbeat > heartbeatInterval ∧ ws.state = .ready
  · rw [if_pos hc]
  · rw [if_neg hc]

theorem heartbeatStep_sends_ready (ws : WState) (now : Nat)
    (h : (heartbeatStep ws now).2.2 ≠ []) : ws.state = .ready := by
  by_contra hn
  apply h
  rw [heartbeatStep, if_neg (fun hh => hn hh.2)]

/-- C8: from NeedsInitialPresence the worker's state either stays put or
moves to Ready, and it moves to Ready in an iteration exactly when that
iteration was not cut short (Terminate or a repeated SetInterface) and the
inbound packet is a Presence carrying the local peer id; moreover the
heartbeat arm broadcasts only when the state is Ready. -/
theorem c8_state_machine :
    (∀ (ws : WState) (cmd : Option NetCmd) (pkt : Option WPacket) (now : Nat),
      ws.state = .needsInitialPresence →
      ((loopStep ws cmd pkt now).1.state = .ready ∨
        (loopStep ws cmd pkt now).1.state = .needsInitialPresence) ∧
      ((loopStep ws cmd pkt now).1.state = .ready ↔
        (loopStep ws cmd pkt now).2.2.2 = false ∧
        ∃ isJoin uname, pkt = some (.presence ws.localId isJoin uname))) ∧
    (∀ (ws : WState) (now : Nat), (heartbeatStep ws now).2.2 ≠ [] →
      ws.state = .ready) := by
  refine ⟨?_, heartbeatStep_sends_ready⟩
  intro ws cmd pkt now hst
  rcases hcc : handleCommand ws cmd with ⟨ws1, evs1, sends1, early⟩
  have hid : ws1.localId = ws.localId := by
    have := handleCommand_localId ws cmd
    rw [hcc] at this
    exact this
  have hst1 : ws1.state = .needsInitialPresence := by
    have := handleCommand_state ws cmd hst
    rw [hcc] at this
    exact this
  cases early with
  | true =>
    have hloop : loopStep ws cmd pkt now = (ws1, evs1, sends1, true) := by
      rw [loopStep, hcc]
    rw [hloop]
    refine ⟨.inr hst1, ?_⟩
    constructor
    · intro hready
      rw [hst1] at hready
      cases hready
    · rintro ⟨hfalse, -⟩
      cases hfalse
  | false =>
    have hloop : (loopStep ws cmd pkt now).1 =
        (heartbeatStep (handleRecv ws1 pkt now).1 now).1 ∧
        (loopStep ws cmd pkt now).2.2.2 = false := by
      rw [loopStep, hcc]
      rcases hrec : handleRecv ws1 pkt now with ⟨ws2, evs2, sends2⟩
      rcases hhb : heartbeatStep ws2 now with ⟨ws3, evs3, sends3⟩
      simp [hrec, hhb]
    have hstate : (loopStep ws cmd pkt now).1.state =
        (handleRecv ws1 pkt now).1.state := by
      rw [hloop.1, heartbeatStep_state]
    by_cases hpres : ∃ isJoin uname, pkt = some (.presence ws.localId isJoin uname)
    · obtain ⟨isJoin, uname, rfl⟩ := hpres
      have : (handleRecv ws1 (some (.presence ws.localId isJoin uname)) now).1.state =
          .ready := by
        rw [handleRecv_state_presence, hid, if_pos rfl]
      rw [hstate, this]
      exact ⟨.inl rfl, by simp [hloop.2]⟩
    · have hother : (handleRecv ws1 pkt now).1.state = ws1.state := by
        cases pkt with
        | none => rfl
        | some p =>
          cases p with
          | presence presId isJoin uname =>
            rw [handleRecv_state_presence]
            have hne : ¬presId = ws1.localId := by
              rw [hid]
              intro hh
              exact hpres ⟨isJoin, uname, by rw [hh]⟩
            rw [if_neg hne]
          | message id msgBody =>
            exact handleRecv_state_other ws1 _ now (by intro a b c h; cases h)
          | presenceReq =>
            exact handleRecv_state_other ws1 _ now (by intro a b c h; cases h)
          | disconnect id =>
            exact handleRecv_state_other ws1 _ now (by intro a b c h; cases h)
      rw [hstate, hother, hst1]
      refine ⟨.inr rfl, ?_⟩
      constructor
      · intro hh
        cases hh
      · rintro ⟨-, hp⟩
        exact absurd hp hpres

/-- C8 witness: from a concrete NeedsInitialPresence state, an inbound
Presence echoing the local id flips the state to Ready, and the iteration
is not cut short. -/
theorem c8_witness :
    ((loopStep ⟨[9, 9, 9, 9, 9, 9, 9, 9], [97], 0, [], [], .needsInitialPresence, false⟩
        none (some (.presence [9, 9, 9, 9, 9, 9, 9, 9] false [97])) 1).1.state =
          .ready ∨
      (loopStep ⟨[9, 9, 9, 9, 9, 9, 9, 9], [97], 0, [], [], .needsInitialPresence, false⟩
        none (some (.presence [9, 9, 9, 9, 9, 9, 9, 9] false [97])) 1).1.state =
          .needsInitialPresence) ∧
    ((loopStep ⟨[9, 9, 9, 9, 9, 9, 9, 9], [97], 0, [], [], .needsInitialPresence, false⟩
        none (some (.presence [9, 9, 9, 9, 9, 9, 9, 9] false [97])) 1).1.state =
          .ready ↔
      (loopStep ⟨[9, 9, 9, 9, 9, 9, 9, 9], [97], 0, [], [], .needsInitialPresence, false⟩
        none (some (.presence [9, 9, 9, 9, 9, 9, 9, 9] false [97])) 1).2.2.2 = false ∧
      ∃ isJoin uname, (some (WPacket.presence [9, 9, 9, 9, 9, 9, 9, 9] false [97]) :
          Option WPacket) =
        some (.presence [9, 9, 9, 9, 9, 9, 9, 9] isJoin uname)) :=
  c8_state_machine.1
    ⟨[9, 9, 9, 9, 9, 9, 9, 9], [97], 0, [], [], .needsInitialPresence, false⟩
    none (some (.presence [9, 9, 9, 9, 9, 9, 9, 9] false [97])) 1 (by decide)

/-- C10: the worker emits AlertUser on an inbound packet exactly when that
packet is a Message whose author id differs from the local peer id and
whose body contains the local username as a substring; neither the command
arm nor the heartbeat arm ever emits AlertUser. -/
theorem c10_alert_user :
    (∀ (ws : WState) (pkt : Option WPacket) (now : Nat),
      .alertUser ∈ (handleRecv ws pkt now).2.1 ↔
        ∃ id msgBody, pkt = some (.message id msgBody) ∧ id ≠ ws.localId ∧
          listContains msgBody ws.username = true) ∧
    (∀ (ws : WState) (cmd : Option NetCmd),
      .alertUser ∉ (handleCommand ws cmd).2.1) ∧
    (∀ (ws : WState) (now : Nat), .alertUser ∉ (heartbeatStep ws now).2.1) := by
  refine ⟨?_, ?_, ?_⟩
  · intro ws pkt now
    cases pkt with
    | none => simp [handleRecv]
    | some p =>
      cases p with
      | message id msgBody =>
        by_cases hcond : id ≠ ws.localId ∧ listContains msgBody ws.username = true
        · simp only [handleRecv, if_pos hcond]
          constructor
          · intro _
            exact ⟨id, msgBody, rfl, hcond.1, hcond.2⟩
          · intro _
            exact List.mem_cons_self _ _
        · simp only [handleRecv, if_neg hcond]
          constructor
          · intro hmem
            simp at hmem
          · rintro ⟨id', msgBody', heq, h1, h2⟩
            obtain ⟨rfl, rfl⟩ : id' = id ∧ msgBody' = msgBody := by
              cases heq
              exact ⟨rfl, rfl⟩
            exact absurd ⟨h1, h2⟩ hcond
      | presenceReq =>
        simp [handleRecv]
      | presence presId isJoin uname =>
        cases hlk : alookup ws.online presId with
        | some tf =>
          obtain ⟨t0, former0⟩ := tf
          rw [handleRecv_presence_existing ws presId isJoin uname now t0 former0 hlk]
          simp
        | none =>
          rw [handleRecv_presence_new ws presId isJoin uname now hlk]
          simp
      | disconnect id =>
        cases hlk : alookup ws.online id with
        | some tu =>
          obtain ⟨t, u⟩ := tu
          simp [handleRecv, hlk]
        | none => simp [handleRecv, hlk]
  · intro ws cmd
    cases cmd with
    | none => simp [handleCommand]
    | some c =>
      cases c with
      | updateUsername u =>
        by_cases hs : ws.state = .needsUsername <;> simp [handleCommand, hs]
      | setInterface n => simp [handleCommand]
      | setEtherType => simp [handleCommand]
      | sendMessage m => simp [handleCommand]
      | pauseHeartbeat b => simp [handleCommand]
      | terminate => simp [handleCommand]
  · intro ws now
    rw [heartbeatStep]
    by_cases hc : now - ws.lastHeartbeat > heartbeatInterval ∧ ws.state = .ready
    · rw [if_pos hc]
      intro hmem
      simp only [List.mem_flatMap] at hmem
      obtain ⟨⟨i', t', u'⟩, -, hxe⟩ := hmem
      by_cases h1 : now - t' > offlineTimeout
      · rw [if_pos h1] at hxe
        simp at hxe
      · rw [if_neg h1] at hxe
        by_cases h2 : now - t' > inactiveTimeout
        · rw [if_pos h2] at hxe
          simp at hxe
        · rw [if_neg h2] at hxe
          simp at hxe
    · rw [if_neg hc]
      simp

/-- C10 witness: at a concrete state, a Message from another peer whose
body contains the local username satisfies the characterization. -/
theorem c10_witness :
    .alertUser ∈ (handleRecv
        ⟨[9, 9, 9, 9, 9, 9, 9, 9], [104, 105], 0, [], [], .ready, false⟩
        (some (.message [1, 1, 1, 1, 1, 1, 1, 1] [97, 104, 105, 98])) 0).2.1 ↔
      ∃ id msgBody,
        (some (WPacket.message [1, 1, 1, 1, 1, 1, 1, 1] [97, 104, 105, 98]) :
          Option WPacket) = some (.message id msgBody) ∧
        id ≠ [9, 9, 9, 9, 9, 9, 9, 9] ∧
        listContains msgBody [104, 105] = true :=
  c10_alert_user.1
    ⟨[9, 9, 9, 9, 9, 9, 9, 9], [104, 105], 0, [], [], .ready, false⟩
    (some (.message [1, 1, 1, 1, 1, 1, 1, 1] [97, 104, 105, 98])) 0

end Arpchat
